import Mathlib

/-!
Verification of the TritonTube distributed placement and replication core.

This file shallowly embeds the Go source of the repository:
  * `internal/chash` (consistent-hash ring, `part_002`),
  * `internal/metadata/pgxsim` (serialisable transaction simulator, `part_004`),
  * `internal/metadata/etcdsim` (coordination-store simulator, `part_006`),
  * `internal/metadata` service (`part_008`),
  * `internal/storage` (ring manager, blob filesystem, upload service).

Go machine integers are modelled as `Nat`/`Int` with explicit `% 2^32`
reductions where the code relies on 32-bit wraparound (the SHA compression
functions); byte strings are `List Nat` with every element `< 256`; Go maps
are association lists; fallible calls return `Option`/`Except`.
-/

set_option maxRecDepth 10000

namespace TT

/-! ## Bit-level helpers (crypto/sha1 and crypto/sha256 as used by the code) -/

/-- Left-rotation of a 32-bit word (input assumed `< 2^32`). -/
def rotl32 (n x : Nat) : Nat :=
  ((x <<< n) % 4294967296) ||| (x >>> (32 - n))

/-- Right-rotation of a 32-bit word (input assumed `< 2^32`). -/
def rotr32 (n x : Nat) : Nat :=
  (x >>> n) ||| ((x <<< (32 - n)) % 4294967296)

/-- Big-endian bytes of a 32-bit word. -/
def be32Bytes (n : Nat) : List Nat :=
  [(n >>> 24) % 256, (n >>> 16) % 256, (n >>> 8) % 256, n % 256]

/-- Big-endian bytes of a 64-bit length field. -/
def be64Bytes (n : Nat) : List Nat :=
  [(n >>> 56) % 256, (n >>> 48) % 256, (n >>> 40) % 256, (n >>> 32) % 256,
   (n >>> 24) % 256, (n >>> 16) % 256, (n >>> 8) % 256, n % 256]

/-- UTF-8 encoding of one character, as Go produces for `[]byte(string)`. -/
def utf8EncChar (c : Char) : List Nat :=
  let n := c.toNat
  if n < 128 then [n]
  else if n < 2048 then [192 + n / 64, 128 + n % 64]
  else if n < 65536 then [224 + n / 4096, 128 + (n / 64) % 64, 128 + n % 64]
  else [240 + n / 262144, 128 + (n / 4096) % 64, 128 + (n / 64) % 64, 128 + n % 64]

/-- UTF-8 bytes of a string, modelling Go's `[]byte(s)`. -/
def utf8Bytes (s : String) : List Nat :=
  (s.data.map utf8EncChar).flatten

/-- Byte-wise lexicographic order, Go's `<` on strings. -/
def bytesLt : List Nat → List Nat → Bool
  | [], [] => false
  | [], _ :: _ => true
  | _ :: _, [] => false
  | a :: as, b :: bs =>
      if a < b then true else if b < a then false else bytesLt as bs

/-- Go's `s1 < s2` (byte-wise; agrees with code-point order on UTF-8). -/
def strLt (a b : String) : Bool :=
  bytesLt (utf8Bytes a) (utf8Bytes b)

/-- Byte-list prefix test. -/
def bytesHasPref : List Nat → List Nat → Bool
  | _, [] => true
  | [], _ :: _ => false
  | a :: as, b :: bs => a == b && bytesHasPref as bs

/-- Go's `strings.HasPrefix(s, p)`. -/
def strHasPref (s p : String) : Bool :=
  bytesHasPref (utf8Bytes s) (utf8Bytes p)

/-- Split a byte list into 64-byte blocks (the input is always padded to a
multiple of 64). -/
def chunks64 (l : List Nat) : List (List Nat) :=
  List.toChunks 64 l

/-- Big-endian 32-bit words of a byte list. -/
def toWordsBE : List Nat → List Nat
  | b0 :: b1 :: b2 :: b3 :: rest =>
      ((b0 <<< 24) ||| (b1 <<< 16) ||| (b2 <<< 8) ||| b3) :: toWordsBE rest
  | _ => []

/-- Merkle–Damgård padding shared by SHA-1 and SHA-256: append `0x80`, zero
bytes to 56 mod 64, then the bit length as 8 big-endian bytes. -/
def shaPad (msg : List Nat) : List Nat :=
  let len := msg.length
  let zeros := (55 + 64 - (len % 64)) % 64
  msg ++ 128 :: List.replicate zeros 0 ++ be64Bytes (8 * len)

/-! ### SHA-1 (crypto/sha1) -/

/-- Extend 16 message words to the 80-word SHA-1 schedule. -/
def sha1Extend (w : Array Nat) : Array Nat :=
  (List.range 64).foldl
    (fun a i =>
      a.push (rotl32 1 ((a.getD (i + 13) 0) ^^^ (a.getD (i + 8) 0) ^^^
        (a.getD (i + 2) 0) ^^^ (a.getD i 0))))
    w

/-- One SHA-1 round: state `(a,b,c,d,e)` with round index `i` and word `w`. -/
def sha1Round (st : Nat × Nat × Nat × Nat × Nat) (p : Nat × Nat) :
    Nat × Nat × Nat × Nat × Nat :=
  let (a, b, c, d, e) := st
  let (i, w) := p
  let f :=
    if i < 20 then (b &&& c) ||| ((b ^^^ 4294967295) &&& d)
    else if i < 40 then b ^^^ c ^^^ d
    else if i < 60 then (b &&& c) ||| (b &&& d) ||| (c &&& d)
    else b ^^^ c ^^^ d
  let k :=
    if i < 20 then 1518500249
    else if i < 40 then 1859775393
    else if i < 60 then 2400959708
    else 3395469782
  let t := (rotl32 5 a + f + e + k + w) % 4294967296
  (t, a, rotl32 30 b, c, d)

/-- Compress one 64-byte block into the SHA-1 state. -/
def sha1Block (h : Nat × Nat × Nat × Nat × Nat) (block : List Nat) :
    Nat × Nat × Nat × Nat × Nat :=
  let ws := sha1Extend (toWordsBE block).toArray
  let (h0, h1, h2, h3, h4) := h
  let (a, b, c, d, e) := ws.toList.enum.foldl sha1Round h
  ((h0 + a) % 4294967296, (h1 + b) % 4294967296, (h2 + c) % 4294967296,
   (h3 + d) % 4294967296, (h4 + e) % 4294967296)

/-- SHA-1 state words of a message. -/
def sha1Words (msg : List Nat) : Nat × Nat × Nat × Nat × Nat :=
  (chunks64 (shaPad msg)).foldl sha1Block
    (1732584193, 4023233417, 2562383102, 271733878, 3285377520)

/-- SHA-1 digest as a list of 20 bytes. -/
def sha1Bytes (msg : List Nat) : List Nat :=
  let (h0, h1, h2, h3, h4) := sha1Words msg
  be32Bytes h0 ++ be32Bytes h1 ++ be32Bytes h2 ++ be32Bytes h3 ++ be32Bytes h4

/-- The ring's hash contract `H`: first 8 bytes of SHA-1 read big-endian as a
64-bit integer (`binary.BigEndian.Uint64(sha1.Sum(b)[:8])`). -/
def hashH (b : List Nat) : Nat :=
  let (h0, h1, _, _, _) := sha1Words b
  h0 * 4294967296 + h1

/-! ### SHA-256 (crypto/sha256) -/

/-- The 64 SHA-256 round constants. -/
def sha256K : List Nat :=
  [1116352408, 1899447441, 3049323471, 3921009573, 961987163, 1508970993,
   2453635748, 2870763221, 3624381080, 310598401, 607225278, 1426881987,
   1925078388, 2162078206, 2614888103, 3248222580, 3835390401, 4022224774,
   264347078, 604807628, 770255983, 1249150122, 1555081692, 1996064986,
   2554220882, 2821834349, 2952996808, 3210313671, 3336571891, 3584528711,
   113926993, 338241895, 666307205, 773529912, 1294757372, 1396182291,
   1695183700, 1986661051, 2177026350, 2456956037, 2730485921, 2820302411,
   3259730800, 3345764771, 3516065817, 3600352804, 4094571909, 275423344,
   430227734, 506948616, 659060556, 883997877, 958139571, 1322822218,
   1537002063, 1747873779, 1955562222, 2024104815, 2227730452, 2361852424,
   2428436474, 2756734187, 3204031479, 3329325298]

/-- Extend 16 message words to the 64-word SHA-256 schedule. -/
def sha256Extend (w : Array Nat) : Array Nat :=
  (List.range 48).foldl
    (fun a i =>
      let w15 := a.getD (i + 1) 0
      let w2 := a.getD (i + 14) 0
      let s0 := (rotr32 7 w15) ^^^ (rotr32 18 w15) ^^^ (w15 >>> 3)
      let s1 := (rotr32 17 w2) ^^^ (rotr32 19 w2) ^^^ (w2 >>> 10)
      a.push ((a.getD i 0 + s0 + a.getD (i + 9) 0 + s1) % 4294967296))
    w

/-- One SHA-256 round over the 8-word state with constant `k` and word `w`. -/
def sha256Round (st : Nat × Nat × Nat × Nat × Nat × Nat × Nat × Nat)
    (p : Nat × Nat) : Nat × Nat × Nat × Nat × Nat × Nat × Nat × Nat :=
  let (a, b, c, d, e, f, g, h) := st
  let (k, w) := p
  let s1 := (rotr32 6 e) ^^^ (rotr32 11 e) ^^^ (rotr32 25 e)
  let ch := (e &&& f) ^^^ ((e ^^^ 4294967295) &&& g)
  let t1 := (h + s1 + ch + k + w) % 4294967296
  let s0 := (rotr32 2 a) ^^^ (rotr32 13 a) ^^^ (rotr32 22 a)
  let mj := (a &&& b) ^^^ (a &&& c) ^^^ (b &&& c)
  let t2 := (s0 + mj) % 4294967296
  ((t1 + t2) % 4294967296, a, b, c, (d + t1) % 4294967296, e, f, g)

/-- Compress one 64-byte block into the SHA-256 state. -/
def sha256Block (h : Nat × Nat × Nat × Nat × Nat × Nat × Nat × Nat)
    (block : List Nat) : Nat × Nat × Nat × Nat × Nat × Nat × Nat × Nat :=
  let ws := sha256Extend (toWordsBE block).toArray
  let (h0, h1, h2, h3, h4, h5, h6, h7) := h
  let (a, b, c, d, e, f, g, hh) :=
    (sha256K.zip ws.toList).foldl sha256Round h
  ((h0 + a) % 4294967296, (h1 + b) % 4294967296, (h2 + c) % 4294967296,
   (h3 + d) % 4294967296, (h4 + e) % 4294967296, (h5 + f) % 4294967296,
   (h6 + g) % 4294967296, (h7 + hh) % 4294967296)

/-- SHA-256 digest of a message as a list of 32 bytes. -/
def sha256Bytes (msg : List Nat) : List Nat :=
  let (h0, h1, h2, h3, h4, h5, h6, h7) :=
    (chunks64 (shaPad msg)).foldl sha256Block
      (1779033703, 3144134277, 1013904242, 2773480762, 1359893119, 2600822924,
       528734635, 1541459225)
  be32Bytes h0 ++ be32Bytes h1 ++ be32Bytes h2 ++ be32Bytes h3 ++
  be32Bytes h4 ++ be32Bytes h5 ++ be32Bytes h6 ++ be32Bytes h7

/-- Lower-case hexadecimal digit. -/
def hexDigit (n : Nat) : Char :=
  "0123456789abcdef".toList.getD n '0'

/-- Two-character hexadecimal rendering of one byte. -/
def hexByte (b : Nat) : String :=
  String.mk [hexDigit (b / 16), hexDigit (b % 16)]

/-- Lower-case hex string of a byte list (Go's `hex.EncodeToString`). -/
def hexString (bs : List Nat) : String :=
  (bs.map hexByte).foldl (· ++ ·) ""

/-- SHA-256 checksum in hexadecimal, as computed by `FS.Put`. -/
def sha256Hex (msg : List Nat) : String :=
  hexString (sha256Bytes msg)

/-! ## Consistent-hash ring (`internal/chash`, `src/unnamed/part_002`) -/

/-- A virtual-node token: `token{hash uint64, node string}`. -/
structure Token where
  hash : Nat
  node : String
deriving Repr, DecidableEq, Inhabited

/-- `chash.Ring{vnodes int, tokens []token}`. -/
structure Ring where
  vnodes : Int
  tokens : List Token
deriving Repr, DecidableEq

/-- `chash.NewRing`: a vnode count `≤ 0` defaults to 100. -/
def NewRing (vnodes : Int) : Ring :=
  if vnodes ≤ 0 then { vnodes := 100, tokens := [] }
  else { vnodes := vnodes, tokens := [] }

/-- Sorted insertion of one token by `hash`.  The source sorts with
`sort.Slice(..., tokens[i].hash < tokens[j].hash)`; on hash ties the Go sort
is unstable and leaves the tie order unspecified, so any order is a faithful
model of it. -/
def insertToken (t : Token) : List Token → List Token
  | [] => [t]
  | u :: us => if t.hash < u.hash then t :: u :: us else u :: insertToken t us

/-- Sort a token list ascending by `hash`. -/
def sortTokens (l : List Token) : List Token :=
  l.foldr insertToken []

/-- `Ring.AddNode`: append `vnodes` tokens hashed from `nodeID + "#" + i`,
then re-sort the token list by hash. -/
def Ring.AddNode (r : Ring) (nodeID : String) : Ring :=
  let fresh := (List.range r.vnodes.toNat).map fun i =>
    { hash := hashH (utf8Bytes (nodeID ++ "#" ++ toString i)), node := nodeID }
  { r with tokens := sortTokens (r.tokens ++ fresh) }

/-- `Ring.RemoveNode`: keep every token whose owner differs from `nodeID`
(the in-place compaction preserves the existing order). -/
def Ring.RemoveNode (r : Ring) (nodeID : String) : Ring :=
  { r with tokens := r.tokens.filter fun t => t.node ≠ nodeID }

/-- One-pass walk of `Ring.Lookup` starting at token index `i`: the Go loop
`for k := 0; len(out) < replicas && k < len(tokens); k++` visits
`tokens[(i+k)%len]`, skipping node ids already collected.  The loop breaks as
soon as `out` is full; the fold below leaves `out` unchanged in that case,
which is the same function. -/
def lookupStep (tokens : List Token) (i replicas : Nat) (out : List String)
    (k : Nat) : List String :=
  if out.length < replicas then
    let n := (tokens.getD ((i + k) % tokens.length) default).node
    if n ∈ out then out else out ++ [n]
  else out

/-- `Ring.Lookup(key, replicas)`: hash the key, `sort.Search` the first token
with `hash ≥ h` (wrapping to 0 past the end), then walk clockwise collecting
distinct node ids.  `sort.Search` on the hash-sorted token list returns the
least index satisfying the predicate, i.e. `findIdx`. -/
def Ring.Lookup (r : Ring) (key : List Nat) (replicas : Int) : List String :=
  if replicas ≤ 0 ∨ r.tokens = [] then []
  else
    let h := hashH key
    let i0 := r.tokens.findIdx fun t => decide (h ≤ t.hash)
    let i := if i0 = r.tokens.length then 0 else i0
    (List.range r.tokens.length).foldl (lookupStep r.tokens i replicas.toNat) []

/-- Specification-side duplicate removal keeping first occurrences
("skipping duplicates by `node_id`"). -/
def dedupF : List String → List String
  | [] => []
  | x :: xs => x :: dedupF (xs.filter fun y => y ≠ x)
termination_by l => l.length
decreasing_by
  exact Nat.lt_succ_of_le (List.length_filter_le _ _)

/-- Specification reading of `Lookup` (spec §4.1): hash the key with `H`,
rotate the token list to the first token with `hash ≥ H(key)` (wrapping at
the end), list the owner ids in walk order, drop duplicates keeping first
occurrences, and take the first `R`. -/
def ringLookupSpec (r : Ring) (key : List Nat) (replicas : Int) :
    List String :=
  if replicas ≤ 0 ∨ r.tokens = [] then []
  else
    let h := hashH key
    let i0 := r.tokens.findIdx fun t => decide (h ≤ t.hash)
    let i := if i0 = r.tokens.length then 0 else i0
    ((r.tokens.rotate i).map Token.node |> dedupF).take replicas.toNat

/-! ## pgxsim (`src/unnamed/part_004`): serialisable transaction simulator -/

/-- `pgxsim.Record`. -/
structure Rec where
  key : String
  value : String
  attributes : List (String × String)
  version : Int
deriving DecidableEq, Inhabited

/-- Lookup in the store map (`store.entries[key]`); the Go map is modelled as
an association list with unique keys, kept sorted so that `Tx.List`'s
post-sort is the identity. -/
def storeGet : List Rec → String → Option Rec
  | [], _ => none
  | r :: rs, k => if r.key = k then some r else storeGet rs k

/-- Map insert/replace (`entries[rec.Key] = rec`), keeping the key order. -/
def storePut : List Rec → Rec → List Rec
  | [], r => [r]
  | x :: xs, r =>
      if strLt r.key x.key then r :: x :: xs
      else if r.key = x.key then r :: xs
      else x :: storePut xs r

/-- Map delete (`delete(entries, key)`). -/
def storeDel (s : List Rec) (k : String) : List Rec :=
  s.filter fun r => r.key ≠ k

/-- The version a reader records for a key: the row version when present,
0 when the key is absent. -/
def storeVersion (s : List Rec) (k : String) : Int :=
  match storeGet s k with
  | some r => r.version
  | none => 0

/-- `pgxsim.TxAccessMode`. -/
inductive AccessMode
  | readOnly
  | readWrite
deriving DecidableEq

/-- Errors a transaction operation can surface. -/
inductive PgErr
  | readOnly
deriving DecidableEq

/-- `pgxsim.Tx`: buffered writes and deletes, the optimistic read set, and
the closed flags. -/
structure Tx where
  writes : List Rec
  deletes : List String
  readset : List (String × Int)
  committed : Bool
  rolled : Bool
  mode : AccessMode
deriving DecidableEq

/-- `Pool.BeginTx` (the isolation level is always SERIALIZABLE here). -/
def newTx (m : AccessMode) : Tx :=
  { writes := [], deletes := [], readset := [], committed := false,
    rolled := false, mode := m }

/-- Insert/replace in the read-set map. -/
def rsSet : List (String × Int) → String → Int → List (String × Int)
  | [], k, v => [(k, v)]
  | p :: ps, k, v => if p.1 = k then (k, v) :: ps else p :: rsSet ps k v

/-- Add to the delete set (`tx.deletes[key] = struct{}{}`). -/
def setAdd (s : List String) (k : String) : List String :=
  if k ∈ s then s else s ++ [k]

/-- `Tx.Get`: buffered write wins, then a buffered delete hides the row,
otherwise the store is consulted and the observed version recorded in the
read set (0 when absent). -/
def Tx.Get (tx : Tx) (store : List Rec) (key : String) : Option Rec × Tx :=
  match storeGet tx.writes key with
  | some r => (some r, tx)
  | none =>
    if key ∈ tx.deletes then (none, tx)
    else
      match storeGet store key with
      | some r => (some r, { tx with readset := rsSet tx.readset key r.version })
      | none => (none, { tx with readset := rsSet tx.readset key 0 })

/-- `Tx.Put`: buffer the record and cancel a pending delete of its key. -/
def Tx.Put (tx : Tx) (r : Rec) : Except PgErr Tx :=
  if tx.mode = AccessMode.readOnly then .error .readOnly
  else .ok { tx with writes := storePut tx.writes r,
                     deletes := tx.deletes.filter fun k => k ≠ r.key }

/-- `Tx.Delete`: drop a buffered write of the key and buffer the delete. -/
def Tx.Delete (tx : Tx) (key : String) : Except PgErr Tx :=
  if tx.mode = AccessMode.readOnly then .error .readOnly
  else .ok { tx with writes := storeDel tx.writes key,
                     deletes := setAdd tx.deletes key }

/-- `Tx.List` (named `txList` here because `List` would shadow the list type
inside the `Tx` namespace): all committed rows matching the prefix in key
order, recording each matched row in the read set, truncated to `limit`
entries when `limit > 0`. -/
def txList (tx : Tx) (store : List Rec) (pre : String) (limit : Int) :
    List Rec × Tx :=
  let matched := store.filter fun r => decide (pre = "") || strHasPref r.key pre
  let tx' := { tx with
    readset := matched.foldl (fun rs r => rsSet rs r.key r.version) tx.readset }
  if 0 < limit ∧ limit < (matched.length : Int) then
    (matched.take limit.toNat, tx')
  else (matched, tx')

/-- Commit outcomes. -/
inductive CommitErr
  | closed
  | serialization
deriving DecidableEq

/-- `Tx.Commit`: reject a closed transaction; validate that every read-set
entry still carries the version observed at read time (0 meaning absent);
on success apply the buffered deletes and then the buffered writes, otherwise
return the serialization error and leave the store untouched. -/
def Tx.Commit (tx : Tx) (store : List Rec) :
    Tx × List Rec × Option CommitErr :=
  if tx.committed ∨ tx.rolled then (tx, store, some .closed)
  else if tx.readset.all (fun p =>
      match storeGet store p.1 with
      | none => p.2 == 0
      | some cur => cur.version == p.2) then
    let afterDeletes := tx.deletes.foldl storeDel store
    let afterWrites := tx.writes.foldl storePut afterDeletes
    ({ tx with committed := true }, afterWrites, none)
  else ({ tx with rolled := true }, store, some .serialization)

/-- `Tx.Rollback`. -/
def Tx.Rollback (tx : Tx) : Tx :=
  if tx.committed ∨ tx.rolled then tx else { tx with rolled := true }

/-! ## etcdsim (`src/unnamed/part_006`): coordination-store simulator -/

/-- `etcdsim.kvPair`. -/
structure EtcdKV where
  value : String
  modRevision : Int
deriving DecidableEq

/-- `etcdsim.Client` state: global revision counter plus key-value map. -/
structure EtcdClient where
  revision : Int
  kv : List (String × EtcdKV)
deriving DecidableEq

/-- Association-list lookup for the etcd key space. -/
def kvGet : List (String × EtcdKV) → String → Option EtcdKV
  | [], _ => none
  | p :: ps, k => if p.1 = k then some p.2 else kvGet ps k

/-- Association-list insert/replace for the etcd key space. -/
def kvPut : List (String × EtcdKV) → String → EtcdKV → List (String × EtcdKV)
  | [], k, v => [(k, v)]
  | p :: ps, k, v => if p.1 = k then (k, v) :: ps else p :: kvPut ps k v

/-- Association-list delete for the etcd key space. -/
def kvDel (s : List (String × EtcdKV)) (k : String) : List (String × EtcdKV) :=
  s.filter fun p => p.1 ≠ k

/-- A key's mod revision: 0 when absent (the zero `var current int64`). -/
def etcdModRev (c : EtcdClient) (k : String) : Int :=
  match kvGet c.kv k with
  | some e => e.modRevision
  | none => 0

/-- `etcdsim.Cmp` restricted to the only form the code builds:
`CompareModRevision(key, "=", value)`. -/
structure EtcdCmp where
  key : String
  value : Int
deriving DecidableEq

/-- `etcdsim.Op`. -/
inductive EtcdOp
  | put (key value : String)
  | del (key : String)
deriving DecidableEq

/-- Apply one transaction operation: a Put always bumps the revision; a
Delete bumps it only when the key exists. -/
def etcdApplyOp (c : EtcdClient) : EtcdOp → EtcdClient
  | .put k v =>
      { revision := c.revision + 1,
        kv := kvPut c.kv k { value := v, modRevision := c.revision + 1 } }
  | .del k =>
      match kvGet c.kv k with
      | some _ => { revision := c.revision + 1, kv := kvDel c.kv k }
      | none => c

/-- `Txn.Commit`: evaluate the mod-revision compares, run the success ops on
success (the failure branch is always empty in this codebase), and return
`(state, succeeded, revision)`. -/
def etcdTxnCommit (c : EtcdClient) (compares : List EtcdCmp)
    (onSuccess onFailure : List EtcdOp) : EtcdClient × Bool × Int :=
  let success := compares.all fun cmp => etcdModRev c cmp.key == cmp.value
  let ops := if success then onSuccess else onFailure
  let c' := ops.foldl etcdApplyOp c
  (c', success, c'.revision)

/-! ## Metadata service (`src/unnamed/part_008`) -/

/-- `metadata.MetadataItem`. -/
structure MetaItem where
  key : String
  value : String
  attributes : List (String × String)
  version : Int
deriving DecidableEq, Inhabited

/-- The default `KeyPrefix` (`"metadata/"`). -/
def metaKeyPref : String := "metadata/"

/-- The default `MaxRetries` (5). -/
def maxRetries : Nat := 5

/-- Service state: the shared pgxsim store (write and read pools share it)
and the etcd client. -/
structure MServ where
  pg : List Rec
  etcd : EtcdClient
deriving DecidableEq

/-- The error kinds the service surfaces (`fmt.Errorf` strings in Go). -/
inductive MErr
  | keyRequired
  | missingKey
  | versionMismatch
  | notFound
  | revisionConflict
  | serialization
  | retryBudget
  | readOnly
  | txClosed
deriving DecidableEq

/-- Model of `json.Marshal` on a `MetadataItem` (field order and `omitempty`
as in the struct tags; string escaping elided — no claim inspects the encoded
bytes). -/
def encodeItem (it : MetaItem) : String :=
  "\x7b" ++
  (if it.key = "" then "" else "\"key\":\"" ++ it.key ++ "\"") ++
  (if it.value = "" then "" else ",\"value\":\"" ++ it.value ++ "\"") ++
  (if it.version = 0 then "" else ",\"version\":" ++ toString it.version) ++
  "\x7d"

/-- Outcome of one `retry` body execution: a serialization anomaly (retried)
or a terminal error. -/
inductive AttemptErr
  | ser
  | terminal (e : MErr)
deriving DecidableEq

/-- `Service.retry`: rerun the body on `ErrSerialization` up to the attempt
budget; the body is deterministic in this sequential model, so it is passed
by value. When the budget ends after serialization failures, the last
serialization error is returned (`lastErr`). -/
def retryRun {α : Type} : Nat → Except AttemptErr α → Except MErr α
  | 0, _ => .error .retryBudget
  | Nat.succ n, fn =>
      match fn with
      | .ok a => .ok a
      | .error (.terminal e) => .error e
      | .error .ser =>
          if n = 0 then .error .serialization else retryRun n fn

/-- The pgx phase of `PutMetadata` (the closure handed to `retry`): read the
current row in a fresh SERIALIZABLE/RW transaction, apply the
expected-version guard, write `version = existing+1` (or 1), commit. -/
def putAttempt (pg : List Rec) (item : MetaItem) (expectedVersion : Int) :
    Except AttemptErr (List Rec × Rec) :=
  let commitNew := fun (tx1 : Tx) (version : Int) =>
    let newRec : Rec :=
      { key := item.key, value := item.value, attributes := item.attributes,
        version := version }
    match tx1.Put newRec with
    | .error _ => .error (AttemptErr.terminal MErr.readOnly)
    | .ok tx2 =>
      match tx2.Commit pg with
      | (_, _, some CommitErr.closed) => .error (AttemptErr.terminal MErr.txClosed)
      | (_, _, some CommitErr.serialization) => .error AttemptErr.ser
      | (_, pg', none) => .ok (pg', newRec)
  let got := (newTx AccessMode.readWrite).Get pg item.key
  match got.1 with
  | none =>
      if 0 < expectedVersion then .error (AttemptErr.terminal MErr.missingKey)
      else commitNew got.2 1
  | some r =>
      if 0 < expectedVersion ∧ r.version ≠ expectedVersion then
        .error (AttemptErr.terminal MErr.versionMismatch)
      else commitNew got.2 (r.version + 1)

/-- `Service.PutMetadata`: pgx phase under retry, then the etcd mirror
transaction — when `ExpectedEtcdRevision ≥ 0` (which includes the request
default 0) a compare on the mirror key's mod revision guards the Put.  A
failed compare surfaces the revision conflict, with the relational commit
already applied. -/
def putMetadata (s : MServ) (item : MetaItem)
    (expectedVersion expectedEtcdRevision : Int) :
    MServ × Except MErr (MetaItem × Int) :=
  if item.key = "" then (s, .error .keyRequired)
  else
    match retryRun maxRetries (putAttempt s.pg item expectedVersion) with
    | .error e => (s, .error e)
    | .ok (pg', newRec) =>
      let item' := { item with version := newRec.version }
      let cmps :=
        if 0 ≤ expectedEtcdRevision then
          [EtcdCmp.mk (metaKeyPref ++ item.key) expectedEtcdRevision]
        else []
      let etcdOut := etcdTxnCommit s.etcd cmps
        [EtcdOp.put (metaKeyPref ++ item.key) (encodeItem item')] []
      if etcdOut.2.1 then
        ({ pg := pg', etcd := etcdOut.1 }, .ok (item', etcdOut.2.2))
      else ({ pg := pg', etcd := etcdOut.1 }, .error .revisionConflict)

/-- `Service.GetMetadata`: read-only transaction, `NotFound` on a missing
row; the read state is discarded by the rollback. -/
def getMetadata (s : MServ) (key : String) : Except MErr MetaItem :=
  if key = "" then .error .keyRequired
  else
    match ((newTx AccessMode.readOnly).Get s.pg key).1 with
    | none => .error .notFound
    | some r => .ok { key := r.key, value := r.value,
                      attributes := r.attributes, version := r.version }

/-- The pgx phase of `DeleteMetadata`. -/
def delAttempt (pg : List Rec) (key : String) (expectedVersion : Int) :
    Except AttemptErr (List Rec) :=
  let got := (newTx AccessMode.readWrite).Get pg key
  match got.1 with
  | none => .error (AttemptErr.terminal MErr.notFound)
  | some r =>
      if 0 < expectedVersion ∧ r.version ≠ expectedVersion then
        .error (AttemptErr.terminal MErr.versionMismatch)
      else
        match got.2.Delete key with
        | .error _ => .error (AttemptErr.terminal MErr.readOnly)
        | .ok tx2 =>
          match tx2.Commit pg with
          | (_, _, some CommitErr.closed) =>
              .error (AttemptErr.terminal MErr.txClosed)
          | (_, _, some CommitErr.serialization) => .error AttemptErr.ser
          | (_, pg', none) => .ok pg'

/-- `Service.DeleteMetadata`: mirror of Put with an etcd Delete op. -/
def deleteMetadata (s : MServ) (key : String)
    (expectedVersion expectedEtcdRevision : Int) :
    MServ × Except MErr Int :=
  if key = "" then (s, .error .keyRequired)
  else
    match retryRun maxRetries (delAttempt s.pg key expectedVersion) with
    | .error e => (s, .error e)
    | .ok pg' =>
      let cmps :=
        if 0 ≤ expectedEtcdRevision then
          [EtcdCmp.mk (metaKeyPref ++ key) expectedEtcdRevision]
        else []
      let etcdOut := etcdTxnCommit s.etcd cmps
        [EtcdOp.del (metaKeyPref ++ key)] []
      if etcdOut.2.1 then ({ pg := pg', etcd := etcdOut.1 }, .ok etcdOut.2.2)
      else ({ pg := pg', etcd := etcdOut.1 }, .error .revisionConflict)

/-- `recordToItem`. -/
def recordToItem (r : Rec) : MetaItem :=
  { key := r.key, value := r.value, attributes := r.attributes,
    version := r.version }

/-- `Service.ListMetadata`: default the limit to 100, fetch `limit+1` rows by
prefix, only then drop rows `≤ page_token`, and emit
`next_page_token = items[limit].key` when more than `limit` rows remain. -/
def listMetadata (s : MServ) (pre : String) (limit : Int)
    (pageToken : String) : List MetaItem × String :=
  let lim : Int := if limit ≤ 0 then 100 else limit
  let fetched := (txList (newTx AccessMode.readOnly) s.pg pre (lim + 1)).1
  let items :=
    if pageToken ≠ "" then fetched.filter fun r => strLt pageToken r.key
    else fetched
  if lim < (items.length : Int) then
    ((items.take lim.toNat).map recordToItem,
     (items.getD lim.toNat default).key)
  else (items.map recordToItem, "")

/-- Requests of the metadata service (nil-request guards are not modelled;
`expected_version`/`expected_etcd_revision` default to 0 in Go). -/
inductive MReq
  | put (item : MetaItem) (expectedVersion expectedEtcdRevision : Int)
  | get (key : String)
  | del (key : String) (expectedVersion expectedEtcdRevision : Int)
  | list (pre : String) (limit : Int) (pageToken : String)
deriving DecidableEq

/-- Responses of the metadata service. -/
inductive MResp
  | putOk (item : MetaItem) (revision : Int)
  | getOk (item : MetaItem)
  | delOk (revision : Int)
  | listOk (items : List MetaItem) (nextPageToken : String)
  | failed (e : MErr)
deriving DecidableEq

/-- One service call. -/
def mstep (s : MServ) : MReq → MServ × MResp
  | .put item ev er =>
      let out := putMetadata s item ev er
      (out.1, match out.2 with
        | .ok p => .putOk p.1 p.2
        | .error e => .failed e)
  | .get k =>
      (s, match getMetadata s k with
        | .ok it => .getOk it
        | .error e => .failed e)
  | .del k ev er =>
      let out := deleteMetadata s k ev er
      (out.1, match out.2 with
        | .ok rev => .delOk rev
        | .error e => .failed e)
  | .list p l t =>
      let out := listMetadata s p l t
      (s, .listOk out.1 out.2)

/-- Run a call sequence, returning the final state and the responses. -/
def mrun (s : MServ) : List MReq → MServ × List MResp
  | [] => (s, [])
  | op :: ops =>
      let out := mstep s op
      let rest := mrun out.1 ops
      (rest.1, out.2 :: rest.2)

/-- Run a call sequence, pairing each request with its response. -/
def mtrace (s : MServ) : List MReq → List (MReq × MResp)
  | [] => []
  | op :: ops =>
      let out := mstep s op
      (op, out.2) :: mtrace out.1 ops

/-- The catalog before any call. -/
def emptyMServ : MServ := { pg := [], etcd := { revision := 0, kv := [] } }

/-- The row `PutMetadata` writes for `item` at version `v`. -/
def itemRec (item : MetaItem) (v : Int) : Rec :=
  { key := item.key, value := item.value, attributes := item.attributes,
    version := v }

/-- The version a trace entry contributes for key `k`: the version carried by
a successful `PutMetadata` response on `k`, nothing for any other entry. -/
def putContrib (k : String) : MReq → MResp → List Int
  | MReq.put item _ _, MResp.putOk it _ =>
      if item.key = k then [it.version] else []
  | _, _ => []

/-- The versions carried by successful `PutMetadata` responses for key `k`,
in call order. -/
def successfulPutVersions (k : String) : List (MReq × MResp) → List Int
  | [] => []
  | (op, resp) :: rest =>
      putContrib k op resp ++ successfulPutVersions k rest

/-- `consecFrom v [x₁, x₂, …]` says the list reads `v+1, v+2, …`: the spec's
"starts at 1 … increments by exactly 1" shape, anchored at `v`. -/
def consecFrom (v : Int) : List Int → Prop
  | [] => True
  | x :: xs => x = v + 1 ∧ consecFrom (v + 1) xs

/-- Trace hypothesis for the amended C2: no delete touches `k`, and every
put of `k` skips the coordination-store CAS (negative expected revision),
so no failed put can advance the relational version. -/
def opSafeFor (k : String) : MReq → Prop
  | .del k' _ _ => k' ≠ k
  | .put item _ er => item.key = k → er < 0
  | _ => True

/-! ### Fixtures for the metadata-service scenarios -/

/-- The S2 item in its ingesting state. -/
def itemIngesting : MetaItem :=
  { key := "video/1", value := "\x7b\"status\":\"ingesting\"\x7d",
    attributes := [], version := 0 }

/-- The S2 item in its ready state. -/
def itemReady : MetaItem :=
  { key := "video/1", value := "\x7b\"status\":\"ready\"\x7d",
    attributes := [], version := 0 }

/-- The S2 call sequence with every `expected_etcd_revision` left at the
request default 0. -/
def lifecycleTraceDefault : List MReq :=
  [MReq.put itemIngesting 0 0, MReq.get "video/1", MReq.put itemReady 1 0,
   MReq.del "video/1" 2 0, MReq.get "video/1"]

/-- The S2 call sequence threading each returned coordination-store revision
into the next mutation, as the repository's own lifecycle test does. -/
def lifecycleTraceChained : List MReq :=
  [MReq.put itemIngesting 0 0, MReq.get "video/1", MReq.put itemReady 1 1,
   MReq.del "video/1" 2 2, MReq.get "video/1"]

/-- A put/delete/put sequence on one key (coordination-store CAS disabled). -/
def putDelPutTrace : List MReq :=
  [MReq.put itemIngesting 0 (-1), MReq.del "video/1" 0 (-1),
   MReq.put itemIngesting 0 (-1)]

/-- `video/<i>` with an empty JSON value. -/
def videoItem (i : Nat) : MetaItem :=
  { key := "video/" ++ toString i, value := "\x7b\x7d", attributes := [],
    version := 0 }

/-- Load `video/0 … video/2`, then page with `limit = 1`, feeding the first
page's `next_page_token` into the second call. -/
def paginationTrace : List MReq :=
  [MReq.put (videoItem 0) 0 (-1), MReq.put (videoItem 1) 0 (-1),
   MReq.put (videoItem 2) 0 (-1), MReq.list "video/" 1 "",
   MReq.list "video/" 1 "video/1"]

/-! ## Ring manager (`src/internal/storage/manager.go`) -/

/-- Modelled from the spec: `chash.Ring.Tokens()` is called by
`manager.go` but absent from the `chash` source in `src/` (`part_002` has no
`Tokens` method); spec §4.1 specifies it as "`Tokens() → sorted
list<Token>`: exposes current token set for persistence". -/
def Ring.Tokens (r : Ring) : List Token :=
  r.tokens

/-- `storage.NodeDescriptor`; `time.Time` is modelled as an integer tick
supplied by the caller (the `clock` oracle). -/
structure NodeDesc where
  id : String
  address : String
  capacityBytes : Int
  availableBytes : Int
  updatedAt : Int
deriving DecidableEq

/-- `storage.VirtualNodeAssignment`. -/
structure VNA where
  id : String
  token : Nat
  nodeID : String
deriving DecidableEq

/-- `storage.ringState` (the JSON payload of `<prefix>/ring`; the nodes map
is kept id-sorted, as `encoding/json` renders Go maps). -/
structure RingStateM where
  version : Int
  nodes : List (String × NodeDesc)
  tokens : List VNA
deriving DecidableEq

/-- Insertion sort step for strings (`sort.Strings`). -/
def insertString (x : String) : List String → List String
  | [] => [x]
  | y :: ys => if strLt x y then x :: y :: ys else y :: insertString x ys

/-- `sort.Strings`. -/
def sortStrings (l : List String) : List String :=
  l.foldr insertString []

/-- The `sort.Slice` order on assignments: by token, ties by id. -/
def vnaLt (a b : VNA) : Bool :=
  if a.token = b.token then strLt a.id b.id else decide (a.token < b.token)

/-- Insertion sort step for assignments. -/
def insertVNA (x : VNA) : List VNA → List VNA
  | [] => [x]
  | y :: ys => if vnaLt x y then x :: y :: ys else y :: insertVNA x ys

/-- Sort assignments by `(token, id)`. -/
def sortVNAs (l : List VNA) : List VNA :=
  l.foldr insertVNA []

/-- Per-node ordinal counter (`counter := map[string]int{}`). -/
def cntGet : List (String × Nat) → String → Nat
  | [], _ => 0
  | p :: ps, k => if p.1 = k then p.2 else cntGet ps k

/-- Counter update. -/
def cntSet : List (String × Nat) → String → Nat → List (String × Nat)
  | [], k, v => [(k, v)]
  | p :: ps, k, v => if p.1 = k then (k, v) :: ps else p :: cntSet ps k v

/-- Insert/replace in the id-sorted nodes map. -/
def nodesSet : List (String × NodeDesc) → String → NodeDesc →
    List (String × NodeDesc)
  | [], k, v => [(k, v)]
  | p :: ps, k, v =>
      if strLt k p.1 then (k, v) :: p :: ps
      else if k = p.1 then (k, v) :: ps
      else p :: nodesSet ps k v

/-- Delete from the nodes map. -/
def nodesDel (m : List (String × NodeDesc)) (k : String) :
    List (String × NodeDesc) :=
  m.filter fun p => p.1 ≠ k

/-- `rebuildLocked`: sort the node ids, add each to a fresh ring, assign
per-node ordinals in token order, and sort the assignments by
`(token, id)`. -/
def rebuildAssignments (nodes : List (String × NodeDesc)) (vnodes : Int) :
    List VNA :=
  let ids := sortStrings (nodes.map Prod.fst)
  let ring := ids.foldl Ring.AddNode (NewRing vnodes)
  let built := ring.Tokens.foldl
    (fun acc t =>
      let idx := cntGet acc.2 t.node
      (acc.1 ++ [VNA.mk (t.node ++ "#" ++ toString idx) t.hash t.node],
       cntSet acc.2 t.node (idx + 1)))
    (([] : List VNA), ([] : List (String × Nat)))
  sortVNAs built.1

/-- Outcomes of a ring-manager mutation. -/
inductive PersistErr
  | invalidID
  | storeFailed
deriving DecidableEq

/-- `storage.RingManager`: the in-memory state, vnode count, and the model
of the `<prefix>/ring` key in the coordination store (`stored`; the JSON
round-trip is the identity on `ringState`). -/
structure RMgr where
  state : RingStateM
  vnodes : Int
  stored : Option RingStateM
  lastRevision : Int
  storeRevision : Int
deriving DecidableEq

/-- `RingManager.UpsertNode`: stamp `updated_at`, merge the node, rebuild,
then `persistLocked` (which increments `version` before the store Put).
`putFails` is the store-write outcome: the in-repo etcdsim never fails, but
spec §4.2's failure clause quantifies over coordination-store write
failures, so the write result is an oracle input.  On failure the code
returns the error with the mutation (and the version bump) left applied. -/
def RMgr.UpsertNode (m : RMgr) (putFails : Bool) (now : Int)
    (node : NodeDesc) : RMgr × Except PersistErr Int :=
  if node.id = "" then (m, .error .invalidID)
  else
    let stamped := { node with updatedAt := now }
    let nodes' := nodesSet m.state.nodes stamped.id stamped
    let st1 : RingStateM :=
      { version := m.state.version + 1, nodes := nodes',
        tokens := rebuildAssignments nodes' m.vnodes }
    if putFails then ({ m with state := st1 }, .error .storeFailed)
    else
      let m' : RMgr :=
        { m with
          state := st1
          stored := some st1
          storeRevision := m.storeRevision + 1
          lastRevision := m.storeRevision + 1 }
      (m', .ok st1.version)

/-- `RingManager.RemoveNode`: idempotent no-op when absent, otherwise delete
and persist like `UpsertNode`. -/
def RMgr.RemoveNode (m : RMgr) (putFails : Bool) (nodeID : String) :
    RMgr × Except PersistErr Int :=
  if nodeID = "" then (m, .error .invalidID)
  else if nodeID ∈ m.state.nodes.map Prod.fst then
    let nodes' := nodesDel m.state.nodes nodeID
    let st1 : RingStateM :=
      { version := m.state.version + 1, nodes := nodes',
        tokens := rebuildAssignments nodes' m.vnodes }
    if putFails then ({ m with state := st1 }, .error .storeFailed)
    else
      let m' : RMgr :=
        { m with
          state := st1
          stored := some st1
          storeRevision := m.storeRevision + 1
          lastRevision := m.storeRevision + 1 }
      (m', .ok st1.version)
  else (m, .ok m.state.version)

/-- `RingManager.Nodes`: the registered descriptors sorted by id (the map is
kept id-sorted, so the projection is the sorted snapshot). -/
def RMgr.Nodes (m : RMgr) : List NodeDesc :=
  m.state.nodes.map Prod.snd

/-- `RingManager.Assignments`: token list copy plus version. -/
def RMgr.Assignments (m : RMgr) : List VNA × Int :=
  (m.state.tokens, m.state.version)

/-- A fresh manager over an empty store with one virtual node per node. -/
def rmEmpty : RMgr :=
  { state := { version := 0, nodes := [], tokens := [] }, vnodes := 1,
    stored := none, lastRevision := 0, storeRevision := 0 }

/-- A concrete heartbeat descriptor. -/
def nodeA : NodeDesc :=
  { id := "A", address := "addr", capacityBytes := 100,
    availableBytes := 50, updatedAt := 0 }

/-! ## Blob filesystem (`FS.Put`, second half of
`src/internal/storage/manager.go`) -/

/-- Per-call syscall outcomes for `FS.Put`: `copyErr` carries the byte count
`io.Copy` reported before failing. -/
structure FsEnv where
  mkdirErr : Option String
  createErr : Option String
  copyErr : Option (Nat × String)
  syncErr : Option String
  closeErr : Option String
  renameErr : Option String
deriving DecidableEq

/-- The `(n, checksum, err)` triple `FS.Put` returns plus the resulting file
system. -/
structure FsPutResult where
  files : List (String × List Nat)
  size : Int
  checksum : String
  err : Option String
deriving DecidableEq

/-- Read a file. -/
def fsGet : List (String × List Nat) → String → Option (List Nat)
  | [], _ => none
  | p :: ps, k => if p.1 = k then some p.2 else fsGet ps k

/-- Create or overwrite a file. -/
def fsWrite : List (String × List Nat) → String → List Nat →
    List (String × List Nat)
  | [], k, v => [(k, v)]
  | p :: ps, k, v => if p.1 = k then (k, v) :: ps else p :: fsWrite ps k v

/-- Remove a file (`os.Remove`). -/
def fsRemove (files : List (String × List Nat)) (k : String) :
    List (String × List Nat) :=
  files.filter fun p => p.1 ≠ k

/-- `storage.FS`. -/
structure FS where
  root : String

/-- `FS.fullPath`: `filepath.Join(root, bucket, object)`. -/
def FS.fullPath (f : FS) (bucket object : String) : String :=
  f.root ++ "/" ++ bucket ++ "/" ++ object

/-- `FS.Put`: create `<path>.tmp`, copy the payload through the SHA-256
hasher, fsync, close, rename into place.  The copy-failure branch removes
the temp file but returns the OUTER `err` — the nil result of `os.Create` —
instead of `copyErr`; the model reproduces that stale-variable slip
(`return 0, "", err` where `copyErr != nil`). -/
def FS.Put (f : FS) (env : FsEnv) (files : List (String × List Nat))
    (bucket object : String) (data : List Nat) : FsPutResult :=
  let path := f.fullPath bucket object
  match env.mkdirErr with
  | some e => { files := files, size := 0, checksum := "", err := some e }
  | none =>
    let tmp := path ++ ".tmp"
    match env.createErr with
    | some e => { files := files, size := 0, checksum := "", err := some e }
    | none =>
      let files1 := fsWrite files tmp []
      match env.copyErr with
      | some pe =>
          { files := fsRemove (fsWrite files1 tmp (data.take pe.1)) tmp,
            size := 0, checksum := "", err := none }
      | none =>
        let files2 := fsWrite files1 tmp data
        match env.syncErr with
        | some e =>
            { files := fsRemove files2 tmp, size := 0, checksum := "",
              err := some e }
        | none =>
          match env.closeErr with
          | some e =>
              { files := fsRemove files2 tmp, size := 0, checksum := "",
                err := some e }
          | none =>
            match env.renameErr with
            | some e =>
                { files := fsRemove files2 tmp, size := 0, checksum := "",
                  err := some e }
            | none =>
                { files := fsWrite (fsRemove files2 tmp) path data,
                  size := (data.length : Int),
                  checksum := sha256Hex data, err := none }

/-- All syscalls succeed. -/
def fsEnvOk : FsEnv :=
  { mkdirErr := none, createErr := none, copyErr := none, syncErr := none,
    closeErr := none, renameErr := none }

/-- `io.Copy` fails immediately (e.g. the client stream breaks). -/
def fsEnvCopyFail : FsEnv :=
  { fsEnvOk with copyErr := some (0, "read failed") }

/-! ## Upload replication phase (`src/internal/storage/service.go`) -/

/-- Upload-level error kinds. -/
inductive SErr
  | emptyReplicaSet
  | missingPrimary
deriving DecidableEq

/-- `ValidateReplicationTargets`: the replica set must be non-empty and must
contain the primary. -/
def ValidateReplicationTargets (targets : List String) (primary : String) :
    Option SErr :=
  if targets = [] then some .emptyReplicaSet
  else if primary ∈ targets then none
  else some .missingPrimary

/-- `MergeReplicationErrors`: collect the non-nil per-target errors; nil iff
none failed. -/
def MergeReplicationErrors (results : List (String × Option String)) :
    Option (List (String × String)) :=
  let failed := results.filterMap fun p => p.2.map fun e => (p.1, e)
  if failed = [] then none else some failed

/-- The environment of one upload after the local blob write: the node id,
the ring lookup result, the replication-transport outcome per peer, the
optional S3 task, and whether a metadata store is configured. -/
structure UploadEnv where
  nodeID : String
  lookup : List String
  transport : String → Option String
  s3Bucket : String
  s3Key : String
  s3Result : Option String
  hasMetadata : Bool

/-- What the post-fan-out half of `UploadSegment` computed. -/
structure UploadDone where
  targets : List String
  results : List (String × Option String)
  aggregate : Option (List (String × String))
  recordWritten : Bool
  replicas : List String
deriving DecidableEq

/-- Outcome of the replication phase. -/
inductive UploadPhase
  | failFast (e : SErr)
  | completed (d : UploadDone)
deriving DecidableEq

/-- The replication phase of `UploadSegment` after the successful local
write: substitute `[self]` for an empty lookup, validate the targets
(failing fast before any replication or metadata write), fan out to the
peers and the optional S3 task, aggregate the per-target errors, and write
the `SegmentRecord` only when a metadata store is configured and the
aggregate error is nil. -/
def uploadReplication (env : UploadEnv) : UploadPhase :=
  let targets := if env.lookup = [] then [env.nodeID] else env.lookup
  match ValidateReplicationTargets targets env.nodeID with
  | some e => .failFast e
  | none =>
    let peers := targets.filter fun t => t ≠ env.nodeID
    let s3Wanted := env.s3Bucket ≠ "" ∧ env.s3Key ≠ ""
    let s3Name := "s3:" ++ env.s3Bucket ++ "/" ++ env.s3Key
    let results :=
      (env.nodeID, (none : Option String)) ::
        peers.map (fun p => (p, env.transport p)) ++
        (if s3Wanted then [(s3Name, env.s3Result)] else [])
    let aggregate := MergeReplicationErrors results
    let replicas :=
      (peers.filter fun p => env.transport p = none) ++
        (if s3Wanted ∧ env.s3Result = none then [s3Name] else [])
    .completed
      { targets := targets, results := results, aggregate := aggregate,
        recordWritten := env.hasMetadata && decide (aggregate = none),
        replicas := replicas }

/-- A three-node replica set in which peer C fails. -/
def uploadEnvPeerFail : UploadEnv :=
  { nodeID := "self", lookup := ["self", "B", "C"],
    transport := fun t => if t = "C" then some "dial error" else none,
    s3Bucket := "", s3Key := "", s3Result := none, hasMetadata := true }

/-- The phase outcome for `uploadEnvPeerFail`. -/
def uploadDonePeerFail : UploadDone :=
  { targets := ["self", "B", "C"],
    results := [("self", none), ("B", none), ("C", some "dial error")],
    aggregate := some [("C", "dial error")], recordWritten := false,
    replicas := ["B"] }

/-- A lookup that does not contain the primary. -/
def uploadEnvNoPrimary : UploadEnv :=
  { nodeID := "A", lookup := ["B"], transport := fun _ => none,
    s3Bucket := "", s3Key := "", s3Result := none, hasMetadata := true }

/-- An empty ring lookup with no S3 task. -/
def uploadEnvEmptyLookup : UploadEnv :=
  { nodeID := "n1", lookup := [], transport := fun _ => none,
    s3Bucket := "", s3Key := "", s3Result := none, hasMetadata := true }

/-- The per-element collection step of the lookup walk, phrased on the node
id alone. -/
def collectStep (replicas : Nat) (out : List String) (n : String) :
    List String :=
  if out.length < replicas then (if n ∈ out then out else out ++ [n]) else out

instance (k : String) (op : MReq) : Decidable (opSafeFor k op) := by
  unfold opSafeFor
  cases op <;> infer_instance

/-- A committed row at version 1. -/
def recV1 : Rec := { key := "a", value := "x", attributes := [], version := 1 }

/-- The replacing row at version 2. -/
def recV2 : Rec := { key := "a", value := "y", attributes := [], version := 2 }

/-- A transaction that read `"a"` at version 1 and buffered the version-2
write. -/
def txEx : Tx :=
  { writes := [recV2], deletes := [], readset := [("a", 1)],
    committed := false, rolled := false, mode := AccessMode.readWrite }

/-- The shared store holding `"a"` at version 1. -/
def pgEx : List Rec := [recV1]

/-! ### Hash test vectors (SHA-1 first-8-bytes via FIPS examples; SHA-256 NIST vectors) -/

example : hashH (utf8Bytes "A#0") = 2540805760424024442 := by rfl
example : hashH (utf8Bytes "abc") = 12220867466687316330 := by rfl
example : hashH [] = 15724779818122431245 := by rfl

example :
    sha256Hex (utf8Bytes "abc") =
      "ba7816bf8f01cfea414140de5dae2223b00361a396177a9cb410ff61f20015ad" := by
  rfl

example :
    sha256Hex [] =
      "e3b0c44298fc1c149afbf4c8996fb92427ae41e4649b934ca495991b7852b855" := by
  rfl

example :
    (((NewRing 1).AddNode "A").AddNode "B").Lookup (utf8Bytes "k") 5 =
      ["A", "B"] := by rfl

/-! ### Ring lemmas -/

theorem dedupF_nil : dedupF [] = [] := by
  simp [dedupF]

theorem dedupF_cons (x : String) (xs : List String) :
    dedupF (x :: xs) = x :: dedupF (xs.filter fun y => y ≠ x) := by
  simp [dedupF]

theorem mem_dedupF :
    ∀ (n : Nat) (l : List String), l.length ≤ n →
      ∀ a, (a ∈ dedupF l ↔ a ∈ l)
  | _, [], _, a => by simp [dedupF_nil]
  | Nat.succ n, x :: xs, h, a => by
      rw [dedupF_cons]
      have hlen : (xs.filter fun y => y ≠ x).length ≤ n :=
        le_trans (List.length_filter_le _ _) (Nat.lt_succ_iff.mp h)
      by_cases hax : a = x
      · simp [hax]
      · simp only [List.mem_cons, hax, false_or]
        rw [mem_dedupF n _ hlen a]
        simp [hax]

theorem dedupF_nodup :
    ∀ (n : Nat) (l : List String), l.length ≤ n → (dedupF l).Nodup
  | _, [], _ => by simp [dedupF_nil]
  | Nat.succ n, x :: xs, h => by
      rw [dedupF_cons]
      have hlen : (xs.filter fun y => y ≠ x).length ≤ n :=
        le_trans (List.length_filter_le _ _) (Nat.lt_succ_iff.mp h)
      refine List.nodup_cons.mpr ⟨?_, dedupF_nodup n _ hlen⟩
      intro hx
      have := (mem_dedupF n _ hlen x).mp hx
      simp at this

theorem lookupStep_eq_collectStep (tokens : List Token) (i replicas : Nat)
    (out : List String) (k : Nat) :
    lookupStep tokens i replicas out k =
      collectStep replicas out ((tokens.getD ((i + k) % tokens.length)
        default).node) := rfl

theorem foldl_collectStep (replicas : Nat) :
    ∀ (l : List String) (out : List String),
      l.foldl (collectStep replicas) out =
        out ++ (dedupF (l.filter fun n => decide (n ∉ out))).take
          (replicas - out.length)
  | [], out => by simp [dedupF_nil]
  | n :: ns, out => by
      rw [List.foldl_cons]
      by_cases hfull : out.length < replicas
      · by_cases hmem : n ∈ out
        · have hstep : collectStep replicas out n = out := by
            simp [collectStep, hfull, hmem]
          rw [hstep, foldl_collectStep replicas ns out]
          have hfilter :
              ((n :: ns).filter fun m => decide (m ∉ out)) =
                ns.filter fun m => decide (m ∉ out) := by
            simp [List.filter_cons, hmem]
          rw [hfilter]
        · have hstep : collectStep replicas out n = out ++ [n] := by
            simp [collectStep, hfull, hmem]
          rw [hstep, foldl_collectStep replicas ns (out ++ [n])]
          have hfilter :
              ((n :: ns).filter fun m => decide (m ∉ out)) =
                n :: (ns.filter fun m => decide (m ∉ out)) := by
            simp [List.filter_cons, hmem]
          have hfilter2 :
              ((ns.filter fun m => decide (m ∉ out)).filter
                  fun y => y ≠ n) =
                ns.filter fun m => decide (m ∉ out ++ [n]) := by
            rw [List.filter_filter]
            refine List.filter_congr ?_
            intro m _
            by_cases hmn : m = n <;> by_cases hmo : m ∈ out <;>
              simp [hmn, hmo]
          have htake : replicas - out.length =
              (replicas - (out ++ [n]).length) + 1 := by
            simp only [List.length_append, List.length_singleton]
            omega
          rw [hfilter, dedupF_cons, hfilter2, htake, List.take_succ_cons,
            List.append_assoc, List.singleton_append]
      · have hstep : collectStep replicas out n = out := by
          simp [collectStep, hfull]
        have hz : replicas - out.length = 0 := by omega
        rw [hstep, foldl_collectStep replicas ns out, hz]
        simp [hz]

/-- The walk of `Ring.Lookup`, started at index `i < tokens.length` with an
empty accumulator, collects the first `replicas` distinct node ids of the
rotated token list. -/
theorem lookup_walk_eq (tokens : List Token) (i replicas : Nat)
    (hi : i < tokens.length) :
    (List.range tokens.length).foldl (lookupStep tokens i replicas) [] =
      (dedupF ((tokens.rotate i).map Token.node)).take replicas := by
  have hlen : 0 < tokens.length := Nat.lt_of_le_of_lt (Nat.zero_le i) hi
  have hmap :
      (List.range tokens.length).map
          (fun k => (tokens.getD ((i + k) % tokens.length) default).node) =
        (tokens.rotate i).map Token.node := by
    apply List.ext_getElem
    · simp [List.length_rotate]
    · intro k hk1 hk2
      simp only [List.getElem_map, List.getElem_range]
      have hklt : k < tokens.length := by simpa using hk1
      have hmod : (i + k) % tokens.length < tokens.length :=
        Nat.mod_lt _ hlen
      rw [List.getD_eq_getElem _ _ hmod]
      rw [List.getElem_rotate tokens i k
        (by simpa [List.length_rotate] using hklt)]
      have hik : (i + k) % tokens.length = (k + i) % tokens.length := by
        rw [Nat.add_comm]
      simp [hik]
  calc
    (List.range tokens.length).foldl (lookupStep tokens i replicas) [] =
        (List.range tokens.length).foldl
          (fun out k => collectStep replicas out
            ((tokens.getD ((i + k) % tokens.length) default).node)) [] := by
          rfl
    _ = ((List.range tokens.length).map
          (fun k => (tokens.getD ((i + k) % tokens.length) default).node)).foldl
            (collectStep replicas) [] := by
          rw [List.foldl_map]
    _ = ((tokens.rotate i).map Token.node).foldl (collectStep replicas) [] := by
          rw [hmap]
    _ = (dedupF ((tokens.rotate i).map Token.node)).take replicas := by
          rw [foldl_collectStep]
          simp

theorem mem_dedupF_iff (l : List String) (a : String) :
    a ∈ dedupF l ↔ a ∈ l :=
  mem_dedupF l.length l (le_refl _) a

theorem dedupF_nodup_all (l : List String) : (dedupF l).Nodup :=
  dedupF_nodup l.length l (le_refl _)

theorem dedupF_toFinset (l : List String) :
    (dedupF l).toFinset = l.toFinset := by
  ext a
  simp [List.mem_toFinset, mem_dedupF_iff]

theorem dedupF_length (l : List String) :
    (dedupF l).length = l.dedup.length := by
  rw [← List.toFinset_card_of_nodup (dedupF_nodup_all l), dedupF_toFinset,
    List.card_toFinset]

/-- Claim C5: `Ring.Lookup(key, R)` hashes the key with `H` (first 8 bytes of
SHA-1 big-endian), rotates to the first token with hash `≥ H(key)` (wrapping
past the end), walks forward collecting node ids skipping duplicates, and
stops at `R` distinct nodes or after one full pass; an empty ring or `R ≤ 0`
yields the empty list, and when `R` is at least the number of distinct nodes
the result is exactly the distinct nodes, without duplicates. -/
theorem ring_Lookup_correct (r : Ring) (key : List Nat) (replicas : Int) :
    r.Lookup key replicas = ringLookupSpec r key replicas
  ∧ ((replicas ≤ 0 ∨ r.tokens = []) → r.Lookup key replicas = [])
  ∧ (r.Lookup key replicas).Nodup
  ∧ ((r.tokens.map Token.node).dedup.length ≤ replicas.toNat →
      ∀ n, (n ∈ r.Lookup key replicas ↔ n ∈ r.tokens.map Token.node)) := by
  by_cases hor : replicas ≤ 0 ∨ r.tokens = []
  · have hl : r.Lookup key replicas = [] := by
      simp only [Ring.Lookup, if_pos hor]
    have hs : ringLookupSpec r key replicas = [] := by
      simp only [ringLookupSpec, if_pos hor]
    refine ⟨hl.trans hs.symm, fun _ => hl, by simp [hl], ?_⟩
    intro hcount n
    rcases hor with hrep | hnil
    · have htz : replicas.toNat = 0 := Int.toNat_of_nonpos hrep
      rw [htz, Nat.le_zero] at hcount
      have hmapnil : r.tokens.map Token.node = [] :=
        (List.dedup_eq_nil _).mp (List.length_eq_zero.mp hcount)
      simp [hl, hmapnil]
    · simp [hl, hnil]
  · have hpos : 0 < replicas := by
      rcases not_or.mp hor with ⟨h1, _⟩
      omega
    have hne : r.tokens ≠ [] := (not_or.mp hor).2
    have hlen : 0 < r.tokens.length := List.length_pos.mpr hne
    have hilt :
        (if (r.tokens.findIdx fun t => decide (hashH key ≤ t.hash)) =
              r.tokens.length then 0
         else (r.tokens.findIdx fun t => decide (hashH key ≤ t.hash))) <
          r.tokens.length := by
      by_cases hcase :
          (r.tokens.findIdx fun t => decide (hashH key ≤ t.hash)) =
            r.tokens.length
      · simpa [hcase]
      · have hle : (r.tokens.findIdx fun t => decide (hashH key ≤ t.hash)) ≤
            r.tokens.length :=
          @List.findIdx_le_length Token (fun t => decide (hashH key ≤ t.hash))
            r.tokens
        rw [if_neg hcase]
        omega
    have hmain : r.Lookup key replicas =
        (dedupF ((r.tokens.rotate
          (if (r.tokens.findIdx fun t => decide (hashH key ≤ t.hash)) =
                r.tokens.length then 0
           else (r.tokens.findIdx fun t =>
             decide (hashH key ≤ t.hash)))).map Token.node)).take
          replicas.toNat := by
      simp only [Ring.Lookup, if_neg hor]
      exact lookup_walk_eq r.tokens _ replicas.toNat hilt
    have hspec : ringLookupSpec r key replicas =
        (dedupF ((r.tokens.rotate
          (if (r.tokens.findIdx fun t => decide (hashH key ≤ t.hash)) =
                r.tokens.length then 0
           else (r.tokens.findIdx fun t =>
             decide (hashH key ≤ t.hash)))).map Token.node)).take
          replicas.toNat := by
      simp only [ringLookupSpec, if_neg hor]
    refine ⟨hmain.trans hspec.symm, fun hcontra => absurd hcontra hor, ?_, ?_⟩
    · rw [hmain]
      exact (List.take_sublist _ _).nodup (dedupF_nodup_all _)
    · intro hcount n
      rw [hmain]
      have hperm :
          ((r.tokens.rotate
            (if (r.tokens.findIdx fun t => decide (hashH key ≤ t.hash)) =
                  r.tokens.length then 0
             else (r.tokens.findIdx fun t =>
               decide (hashH key ≤ t.hash)))).map Token.node).Perm
            (r.tokens.map Token.node) :=
        (List.rotate_perm r.tokens _).map Token.node
      have hcount' :
          (dedupF ((r.tokens.rotate
            (if (r.tokens.findIdx fun t => decide (hashH key ≤ t.hash)) =
                  r.tokens.length then 0
             else (r.tokens.findIdx fun t =>
               decide (hashH key ≤ t.hash)))).map Token.node)).length ≤
            replicas.toNat := by
        rw [dedupF_length]
        calc ((r.tokens.rotate _).map Token.node).dedup.length
            = ((r.tokens.rotate _).map Token.node).toFinset.card := by
              rw [List.card_toFinset]
          _ = (r.tokens.map Token.node).toFinset.card := by
              rw [List.toFinset_eq_of_perm _ _ hperm]
          _ = (r.tokens.map Token.node).dedup.length := by
              rw [List.card_toFinset]
          _ ≤ replicas.toNat := hcount
      rw [List.take_of_length_le hcount', mem_dedupF_iff]
      exact hperm.mem_iff

/-- Witness for C5: a concrete two-node ring with one virtual node each;
the degenerate `R = 0` case is empty and `R = 5` covers both nodes. -/
theorem ring_Lookup_correct_witness :
    ((((NewRing 1).AddNode "A").AddNode "B").Lookup (utf8Bytes "k") 0 = []) ∧
    (∀ n,
      n ∈ (((NewRing 1).AddNode "A").AddNode "B").Lookup (utf8Bytes "k") 5 ↔
      n ∈ ((((NewRing 1).AddNode "A").AddNode "B").tokens.map Token.node)) :=
  ⟨(ring_Lookup_correct _ (utf8Bytes "k") 0).2.1 (Or.inl (by decide)),
   (ring_Lookup_correct _ (utf8Bytes "k") 5).2.2.2 (by decide)⟩

/-! ### Store lemmas for the metadata service -/

theorem storeGet_storePut (r : Rec) (k : String) :
    ∀ s : List Rec,
      storeGet (storePut s r) k = if r.key = k then some r else storeGet s k
  | [] => by
      by_cases h : r.key = k <;> simp [storePut, storeGet, h]
  | x :: xs => by
      simp only [storePut]
      by_cases h1 : strLt r.key x.key = true
      · rw [if_pos h1]
        simp only [storeGet]
      · rw [if_neg h1]
        by_cases h2 : r.key = x.key
        · rw [if_pos h2]
          by_cases h : r.key = k
          · simp [storeGet, h]
          · have hx : ¬ x.key = k := fun hc => h (h2.trans hc)
            simp [storeGet, h, hx]
        · rw [if_neg h2]
          by_cases hx : x.key = k
          · have hrk : ¬ r.key = k := fun hc => h2 (hc.trans hx.symm)
            simp [storeGet, hx, hrk]
          · simp only [storeGet, if_neg hx]
            exact storeGet_storePut r k xs

theorem storeGet_storeDel (kd k : String) :
    ∀ s : List Rec,
      storeGet (storeDel s kd) k = if kd = k then none else storeGet s k
  | [] => by
      by_cases h : kd = k <;> simp [storeDel, storeGet, h]
  | x :: xs => by
      simp only [storeDel, List.filter_cons]
      by_cases hx : x.key = kd
      · have hc : decide (x.key ≠ kd) = false := by simp [hx]
        rw [hc]
        simp only [Bool.false_eq_true, if_false]
        have hrec := storeGet_storeDel kd k xs
        simp only [storeDel] at hrec
        rw [hrec]
        by_cases h : kd = k
        · simp [h]
        · have hxk : ¬ x.key = k := fun hk => h (hx.symm.trans hk)
          simp [h, storeGet, hxk]
      · have hc : decide (x.key ≠ kd) = true := by simp [hx]
        rw [hc]
        simp only [if_true]
        by_cases hxk : x.key = k
        · have hkd : ¬ kd = k := fun hk => hx (hxk.trans hk.symm)
          simp [storeGet, hxk, hkd]
        · simp only [storeGet, if_neg hxk]
          have hrec := storeGet_storeDel kd k xs
          simp only [storeDel] at hrec
          rw [hrec]

theorem storeVersion_storePut_self (s : List Rec) (r : Rec) :
    storeVersion (storePut s r) r.key = r.version := by
  simp [storeVersion, storeGet_storePut]

theorem storeVersion_storePut_other (s : List Rec) (r : Rec) (k : String)
    (h : r.key ≠ k) : storeVersion (storePut s r) k = storeVersion s k := by
  simp [storeVersion, storeGet_storePut, h]

theorem storeVersion_storeDel_other (s : List Rec) (kd k : String)
    (h : kd ≠ k) : storeVersion (storeDel s kd) k = storeVersion s k := by
  simp [storeVersion, storeGet_storeDel, h]

/-! ### Characterization of the put/delete attempts -/

theorem putAttempt_none_ok (pg : List Rec) (item : MetaItem) (ev : Int)
    (hget : storeGet pg item.key = none) (hev : ¬ 0 < ev) :
    putAttempt pg item ev =
      .ok (storePut pg (itemRec item 1), itemRec item 1) := by
  simp [putAttempt, Tx.Get, newTx, storeGet, hget, hev, Tx.Put, Tx.Commit,
    rsSet, storePut, storeDel, storeVersion, itemRec]

theorem putAttempt_none_err (pg : List Rec) (item : MetaItem) (ev : Int)
    (hget : storeGet pg item.key = none) (hev : 0 < ev) :
    putAttempt pg item ev = .error (AttemptErr.terminal MErr.missingKey) := by
  simp [putAttempt, Tx.Get, newTx, storeGet, hget, hev]

theorem putAttempt_some_ok (pg : List Rec) (item : MetaItem) (ev : Int)
    (r : Rec) (hget : storeGet pg item.key = some r)
    (hev : ¬(0 < ev ∧ r.version ≠ ev)) :
    putAttempt pg item ev =
      .ok (storePut pg (itemRec item (r.version + 1)),
        itemRec item (r.version + 1)) := by
  simp [putAttempt, Tx.Get, newTx, storeGet, hget, hev, Tx.Put, Tx.Commit,
    rsSet, storePut, storeDel, storeVersion, itemRec]

theorem putAttempt_some_err (pg : List Rec) (item : MetaItem) (ev : Int)
    (r : Rec) (hget : storeGet pg item.key = some r)
    (hev : 0 < ev ∧ r.version ≠ ev) :
    putAttempt pg item ev =
      .error (AttemptErr.terminal MErr.versionMismatch) := by
  simp [putAttempt, Tx.Get, newTx, storeGet, hget, hev]

theorem delAttempt_none (pg : List Rec) (key : String) (ev : Int)
    (hget : storeGet pg key = none) :
    delAttempt pg key ev = .error (AttemptErr.terminal MErr.notFound) := by
  simp [delAttempt, Tx.Get, newTx, storeGet, hget]

theorem delAttempt_some_err (pg : List Rec) (key : String) (ev : Int)
    (r : Rec) (hget : storeGet pg key = some r)
    (hev : 0 < ev ∧ r.version ≠ ev) :
    delAttempt pg key ev =
      .error (AttemptErr.terminal MErr.versionMismatch) := by
  simp [delAttempt, Tx.Get, newTx, storeGet, hget, hev]

theorem delAttempt_some_ok (pg : List Rec) (key : String) (ev : Int)
    (r : Rec) (hget : storeGet pg key = some r)
    (hev : ¬(0 < ev ∧ r.version ≠ ev)) :
    delAttempt pg key ev = .ok (storeDel pg key) := by
  simp [delAttempt, Tx.Get, newTx, storeGet, hget, hev, Tx.Delete, Tx.Commit,
    rsSet, setAdd, storeDel]

theorem retryRun_ok {α : Type} (a : α) :
    retryRun maxRetries (Except.ok a) = .ok a := rfl

theorem retryRun_terminal {α : Type} (e : MErr) :
    @retryRun α maxRetries (Except.error (AttemptErr.terminal e)) =
      .error e := rfl

/-! ### Step lemmas for the metadata service -/

theorem mstep_get_state (s : MServ) (key : String) :
    (mstep s (MReq.get key)).1 = s := rfl

theorem mstep_list_state (s : MServ) (p : String) (l : Int) (t : String) :
    (mstep s (MReq.list p l t)).1 = s := rfl

/-- A `PutMetadata` call either leaves the relational store untouched or
installs the row for `item.key` at `current version + 1` — the latter also
when the later coordination-store CAS fails. -/
theorem mstep_put_pg (s : MServ) (item : MetaItem) (ev er : Int) :
    (mstep s (MReq.put item ev er)).1.pg = s.pg ∨
    (mstep s (MReq.put item ev er)).1.pg =
      storePut s.pg (itemRec item (storeVersion s.pg item.key + 1)) := by
  by_cases hk : item.key = ""
  · left
    simp [mstep, putMetadata, hk]
  · rcases hget : storeGet s.pg item.key with _ | r
    · by_cases hev : 0 < ev
      · left
        simp [mstep, putMetadata, hk,
          putAttempt_none_err s.pg item ev hget hev, retryRun_terminal]
      · right
        have h0 : storeVersion s.pg item.key = 0 := by
          simp [storeVersion, hget]
        rw [h0, zero_add]
        simp only [mstep, putMetadata, if_neg hk,
          putAttempt_none_ok s.pg item ev hget hev, retryRun_ok]
        split <;> split <;> rfl
    · by_cases hev : 0 < ev ∧ r.version ≠ ev
      · left
        simp [mstep, putMetadata, hk,
          putAttempt_some_err s.pg item ev r hget hev, retryRun_terminal]
      · right
        have h0 : storeVersion s.pg item.key = r.version := by
          simp [storeVersion, hget]
        rw [h0]
        simp only [mstep, putMetadata, if_neg hk,
          putAttempt_some_ok s.pg item ev r hget hev, retryRun_ok]
        split <;> split <;> rfl

/-- A `PutMetadata` call whose request skips the coordination-store CAS
(`expected_etcd_revision < 0`) either fails leaving the state untouched, or
returns a response carrying `current version + 1` and installs that row. -/
theorem mstep_put_key (s : MServ) (item : MetaItem) (ev er : Int)
    (her : er < 0) :
    ((mstep s (MReq.put item ev er)).1 = s ∧
      ∀ it rev, (mstep s (MReq.put item ev er)).2 ≠ MResp.putOk it rev) ∨
    ((∃ rev, (mstep s (MReq.put item ev er)).2 =
        MResp.putOk { item with version := storeVersion s.pg item.key + 1 }
          rev) ∧
      (mstep s (MReq.put item ev er)).1.pg =
        storePut s.pg (itemRec item (storeVersion s.pg item.key + 1))) := by
  have hcmps : ¬ (0 : Int) ≤ er := by omega
  by_cases hk : item.key = ""
  · left
    constructor
    · simp [mstep, putMetadata, hk]
    · intro it rev
      simp [mstep, putMetadata, hk]
  · rcases hget : storeGet s.pg item.key with _ | r
    · by_cases hev : 0 < ev
      · left
        constructor
        · simp [mstep, putMetadata, hk,
            putAttempt_none_err s.pg item ev hget hev, retryRun_terminal]
        · intro it rev
          simp [mstep, putMetadata, hk,
            putAttempt_none_err s.pg item ev hget hev, retryRun_terminal]
      · right
        have h0 : storeVersion s.pg item.key = 0 := by
          simp [storeVersion, hget]
        rw [h0, zero_add]
        constructor
        · refine ⟨(etcdTxnCommit s.etcd []
            [EtcdOp.put (metaKeyPref ++ item.key)
              (encodeItem { item with version := 1 })] []).2.2, ?_⟩
          simp [mstep, putMetadata, hk,
            putAttempt_none_ok s.pg item ev hget hev, retryRun_ok, hcmps,
            etcdTxnCommit, itemRec]
        · simp only [mstep, putMetadata, if_neg hk,
            putAttempt_none_ok s.pg item ev hget hev, retryRun_ok]
          split <;> split <;> rfl
    · by_cases hev : 0 < ev ∧ r.version ≠ ev
      · left
        constructor
        · simp [mstep, putMetadata, hk,
            putAttempt_some_err s.pg item ev r hget hev, retryRun_terminal]
        · intro it rev
          simp [mstep, putMetadata, hk,
            putAttempt_some_err s.pg item ev r hget hev, retryRun_terminal]
      · right
        have h0 : storeVersion s.pg item.key = r.version := by
          simp [storeVersion, hget]
        rw [h0]
        constructor
        · refine ⟨(etcdTxnCommit s.etcd []
            [EtcdOp.put (metaKeyPref ++ item.key)
              (encodeItem { item with version := r.version + 1 })] []).2.2, ?_⟩
          simp [mstep, putMetadata, hk,
            putAttempt_some_ok s.pg item ev r hget hev, retryRun_ok, hcmps,
            etcdTxnCommit, itemRec]
        · simp only [mstep, putMetadata, if_neg hk, if_neg hcmps,
            putAttempt_some_ok s.pg item ev r hget hev, retryRun_ok]
          split <;> rfl

/-- A `DeleteMetadata` call either leaves the relational store untouched or
removes exactly its key — the latter also when the coordination-store CAS
fails afterwards. -/
theorem mstep_del_pg (s : MServ) (key : String) (ev er : Int) :
    (mstep s (MReq.del key ev er)).1.pg = s.pg ∨
    (mstep s (MReq.del key ev er)).1.pg = storeDel s.pg key := by
  by_cases hk : key = ""
  · left
    simp [mstep, deleteMetadata, hk]
  · rcases hget : storeGet s.pg key with _ | r
    · left
      simp [mstep, deleteMetadata, hk, delAttempt_none s.pg key ev hget,
        retryRun_terminal]
    · by_cases hev : 0 < ev ∧ r.version ≠ ev
      · left
        simp [mstep, deleteMetadata, hk,
          delAttempt_some_err s.pg key ev r hget hev, retryRun_terminal]
      · right
        simp only [mstep, deleteMetadata, if_neg hk,
          delAttempt_some_ok s.pg key ev r hget hev, retryRun_ok]
        split <;> split <;> rfl

/-- Along any call sequence whose operations are safe for `k`
(no delete of `k`, every put of `k` skips the etcd CAS), the successful put
versions for `k` continue consecutively from the current relational
version. -/
theorem versions_consec_from (k : String) (ops : List MReq) :
    ∀ s : MServ, (∀ op ∈ ops, opSafeFor k op) →
      consecFrom (storeVersion s.pg k)
        (successfulPutVersions k (mtrace s ops)) := by
  induction ops with
  | nil =>
      intro s _
      simp [mtrace, successfulPutVersions, consecFrom]
  | cons op ops ih =>
      intro s hsafe
      have hsafe0 : opSafeFor k op := hsafe op (List.mem_cons_self op ops)
      have hrest : ∀ o ∈ ops, opSafeFor k o :=
        fun o ho => hsafe o (List.mem_cons_of_mem _ ho)
      have hmt : mtrace s (op :: ops) =
          (op, (mstep s op).2) :: mtrace (mstep s op).1 ops := by
        simp [mtrace]
      rw [hmt]
      simp only [successfulPutVersions]
      cases op with
      | get key =>
          have hc : putContrib k (MReq.get key) (mstep s (MReq.get key)).2 =
              [] := by
            cases h : (mstep s (MReq.get key)).2 <;> rfl
          rw [hc]
          simpa using ih s hrest
      | list p l t =>
          have hc : putContrib k (MReq.list p l t)
              (mstep s (MReq.list p l t)).2 = [] := by
            cases h : (mstep s (MReq.list p l t)).2 <;> rfl
          rw [hc]
          simpa using ih s hrest
      | del key ev er =>
          have hne : key ≠ k := hsafe0
          have hc : putContrib k (MReq.del key ev er)
              (mstep s (MReq.del key ev er)).2 = [] := by
            cases h : (mstep s (MReq.del key ev er)).2 <;> rfl
          rw [hc]
          simp only [List.nil_append]
          have hver : storeVersion (mstep s (MReq.del key ev er)).1.pg k =
              storeVersion s.pg k := by
            rcases mstep_del_pg s key ev er with h | h
            · rw [h]
            · rw [h, storeVersion_storeDel_other _ _ _ hne]
          have hrec := ih (mstep s (MReq.del key ev er)).1 hrest
          rw [hver] at hrec
          exact hrec
      | put item ev er =>
          by_cases hk : item.key = k
          · subst hk
            have her : er < 0 := hsafe0 rfl
            rcases mstep_put_key s item ev er her with ⟨h1, h2⟩ |
              ⟨⟨rev, hresp⟩, hpg⟩
            · have hc : putContrib item.key (MReq.put item ev er)
                  (mstep s (MReq.put item ev er)).2 = [] := by
                cases h : (mstep s (MReq.put item ev er)).2 <;>
                  first
                  | rfl
                  | exact absurd h (h2 _ _)
              rw [hc]
              simp only [List.nil_append]
              rw [h1]
              exact ih s hrest
            · rw [hresp]
              have hc : putContrib item.key (MReq.put item ev er)
                  (MResp.putOk
                    { item with version := storeVersion s.pg item.key + 1 }
                    rev) =
                  [storeVersion s.pg item.key + 1] := by
                simp [putContrib]
              rw [hc]
              have hver :
                  storeVersion (mstep s (MReq.put item ev er)).1.pg
                      item.key =
                    storeVersion s.pg item.key + 1 := by
                rw [hpg]
                exact storeVersion_storePut_self s.pg
                  (itemRec item (storeVersion s.pg item.key + 1))
              have hrec := ih (mstep s (MReq.put item ev er)).1 hrest
              rw [hver] at hrec
              rw [List.singleton_append]
              exact ⟨rfl, hrec⟩
          · have hc : putContrib k (MReq.put item ev er)
                (mstep s (MReq.put item ev er)).2 = [] := by
              cases h : (mstep s (MReq.put item ev er)).2 <;>
                simp [putContrib, hk]
            rw [hc]
            simp only [List.nil_append]
            have hver : storeVersion (mstep s (MReq.put item ev er)).1.pg k =
                storeVersion s.pg k := by
              rcases mstep_put_pg s item ev er with h | h
              · rw [h]
              · rw [h]
                exact storeVersion_storePut_other _ _ _
                  (by simp [itemRec, hk])
            have hrec := ih (mstep s (MReq.put item ev er)).1 hrest
            rw [hver] at hrec
            exact hrec

/-- Claim C2 counterexample: a successful Put, a successful Delete, and a
second successful Put of the same key return versions 1 and then 1 again —
the delete resets the relational row, so the sequence of versions returned
by successful PutMetadata calls over arbitrary operation sequences has a
repeat, contradicting "exactly 1, 2, 3, … with no gaps and no repeats". -/
theorem putMetadata_versions_counterexample :
    successfulPutVersions "video/1" (mtrace emptyMServ putDelPutTrace) =
      [1, 1] ∧
    ¬ consecFrom 0
      (successfulPutVersions "video/1" (mtrace emptyMServ putDelPutTrace)) := by
  refine ⟨by decide, ?_⟩
  intro h
  rw [(by decide :
    successfulPutVersions "video/1" (mtrace emptyMServ putDelPutTrace) =
      [1, 1])] at h
  simp [consecFrom] at h

/-- Claim C2 as amended: for every key `k` and every operation sequence
containing no DeleteMetadata on `k` and in which every PutMetadata on `k`
skips the coordination-store CAS (negative expected revision — a put that
fails that CAS after committing relationally would skip a version), the
versions returned by successful PutMetadata calls on `k` starting from the
empty catalog are exactly `1, 2, 3, …` with no gaps and no repeats. -/
theorem putMetadata_versions_consecutive (k : String) (ops : List MReq)
    (hsafe : ∀ op ∈ ops, opSafeFor k op) :
    consecFrom 0 (successfulPutVersions k (mtrace emptyMServ ops)) := by
  have h := versions_consec_from k ops emptyMServ hsafe
  simpa [emptyMServ, storeVersion, storeGet] using h

/-- Witness for the amended C2 on a concrete three-call sequence. -/
theorem putMetadata_versions_consecutive_witness :
    consecFrom 0 (successfulPutVersions "video/1"
      (mtrace emptyMServ
        [MReq.put itemIngesting 0 (-1), MReq.get "video/1",
         MReq.put itemReady 1 (-1)])) :=
  putMetadata_versions_consecutive "video/1"
    [MReq.put itemIngesting 0 (-1), MReq.get "video/1",
     MReq.put itemReady 1 (-1)] (by decide)

/-! ### Theorems for the metadata lifecycle (C1) and pagination (C3) -/

/-- Claim C1 counterexample: with every `expected_etcd_revision` left at the
request default (0, which is `≥ 0` and therefore arms the coordination-store
CAS against mod revision 0), the second Put returns the revision-conflict
error instead of version 2, the Delete also fails the CAS (after its
relational delete has committed), and the final Get is NotFound. -/
theorem metadata_lifecycle_default_revisions_counterexample :
    (mrun emptyMServ lifecycleTraceDefault).2 =
      [MResp.putOk { itemIngesting with version := 1 } 1,
       MResp.getOk { itemIngesting with version := 1 },
       MResp.failed MErr.revisionConflict,
       MResp.failed MErr.revisionConflict,
       MResp.failed MErr.notFound] := by decide

/-- Claim C1 as amended: the same call sequence behaves exactly as S2
describes — versions 1 then 2, successful delete, then NotFound — when each
mutation supplies the coordination-store revision returned by the preceding
mutation. -/
theorem metadata_lifecycle_chained_revisions :
    (mrun emptyMServ lifecycleTraceChained).2 =
      [MResp.putOk { itemIngesting with version := 1 } 1,
       MResp.getOk { itemIngesting with version := 1 },
       MResp.putOk { itemReady with version := 2 } 2,
       MResp.delOk 3,
       MResp.failed MErr.notFound] := by decide

/-- Claim C3: evaluating `ListMetadata` on three committed items shows the
pagination loses rows.  The first `limit = 1` page returns `video/0` with
`next_page_token = "video/1"` (the first key it did NOT return), and the
second call with that token returns the empty page with no token — instead
of the matching rows `video/1, video/2` — because the token filter runs
after the `limit+1` truncation and the strict `>` comparison then skips the
token row itself. -/
theorem listMetadata_page_token_after_truncation :
    (mrun emptyMServ paginationTrace).2 =
      [MResp.putOk { videoItem 0 with version := 1 } 1,
       MResp.putOk { videoItem 1 with version := 1 } 2,
       MResp.putOk { videoItem 2 with version := 1 } 3,
       MResp.listOk [{ videoItem 0 with version := 1 }] "video/1",
       MResp.listOk [] ""] := by decide


/-! ### Theorems for the ring manager (C4), the blob filesystem (C7), and
the upload replication phase (C6, C8, C10) -/

/-- Claim C4 evaluation: when the coordination-store write fails during
`UpsertNode`, the call returns the error but `Nodes()` already shows the
merged node and `Assignments()` the bumped version, while the store still
holds the old (here: empty) state — the mutation is neither rolled back nor
deferred, so the observable state diverges from what a `Watch` would
deliver. -/
theorem ringManager_failed_persist_divergence :
    (rmEmpty.UpsertNode true 7 nodeA).2 = Except.error PersistErr.storeFailed
  ∧ (rmEmpty.UpsertNode true 7 nodeA).1.Nodes = [{ nodeA with updatedAt := 7 }]
  ∧ ((rmEmpty.UpsertNode true 7 nodeA).1.Assignments).2 = 1
  ∧ (rmEmpty.UpsertNode true 7 nodeA).1.stored = none :=
  ⟨rfl, by decide, by decide, by decide⟩

/-- Claim C7 evaluation: when `io.Copy` fails, `FS.Put` removes the temp
file and returns `(0, "", nil)` — the stale nil `os.Create` error instead of
`copyErr` — with no file at the final path; when every step succeeds the
file is installed at the final path with the returned size and SHA-256
checksum of the written bytes. -/
theorem fs_put_copy_error_nil_and_success_atomic :
    ((FS.mk "root").Put fsEnvCopyFail [] "b" "o" (utf8Bytes "abc")).err = none
  ∧ ((FS.mk "root").Put fsEnvCopyFail [] "b" "o" (utf8Bytes "abc")).size = 0
  ∧ ((FS.mk "root").Put fsEnvCopyFail [] "b" "o"
      (utf8Bytes "abc")).checksum = ""
  ∧ fsGet ((FS.mk "root").Put fsEnvCopyFail [] "b" "o"
      (utf8Bytes "abc")).files "root/b/o" = none
  ∧ ((FS.mk "root").Put fsEnvOk [] "b" "o" (utf8Bytes "abc")).err = none
  ∧ ((FS.mk "root").Put fsEnvOk [] "b" "o" (utf8Bytes "abc")).size = 3
  ∧ fsGet ((FS.mk "root").Put fsEnvOk [] "b" "o"
      (utf8Bytes "abc")).files "root/b/o" = some (utf8Bytes "abc")
  ∧ ((FS.mk "root").Put fsEnvOk [] "b" "o" (utf8Bytes "abc")).checksum =
      sha256Hex (utf8Bytes "abc") :=
  ⟨rfl, rfl, rfl, by decide, rfl, by decide, by decide, rfl⟩

theorem merge_none_iff (results : List (String × Option String)) :
    MergeReplicationErrors results = none ↔ ∀ p ∈ results, p.2 = none := by
  unfold MergeReplicationErrors
  constructor
  · intro h p hp
    by_cases hL : (results.filterMap fun p => p.2.map fun e => (p.1, e)) = []
    · have := List.filterMap_eq_nil.mp hL p hp
      simpa using this
    · rw [if_neg hL] at h
      exact absurd h (by simp)
  · intro h
    have hL : (results.filterMap fun p => p.2.map fun e => (p.1, e)) = [] := by
      rw [List.filterMap_eq_nil]
      intro p hp
      simp [h p hp]
    rw [if_pos hL]

/-- Claim C6: in the replication phase of `UploadSegment`, the aggregate
error is non-nil iff some entry of the per-target result map carries an
error; with a metadata store configured, the `SegmentRecord` is written iff
the aggregate error is nil; in particular a failed peer replication
suppresses the record. -/
theorem upload_aggregate_iff_record (env : UploadEnv) (d : UploadDone)
    (hc : uploadReplication env = UploadPhase.completed d) :
    (d.aggregate ≠ none ↔ ∃ p ∈ d.results, p.2 ≠ none)
  ∧ (env.hasMetadata = true → (d.recordWritten = true ↔ d.aggregate = none))
  ∧ (∀ p ∈ d.targets, p ≠ env.nodeID → env.transport p ≠ none →
      d.recordWritten = false) := by
  simp only [uploadReplication] at hc
  rcases hval : ValidateReplicationTargets
      (if env.lookup = [] then [env.nodeID] else env.lookup) env.nodeID
    with _ | e
  rotate_left
  · rw [hval] at hc
    exact absurd hc (by simp)
  rw [hval] at hc
  simp only [UploadPhase.completed.injEq] at hc
  subst hc
  refine ⟨?_, ?_, ?_⟩
  · dsimp only
    rw [Ne, merge_none_iff]
    push_neg
    rfl
  · intro hmeta
    dsimp only
    rw [hmeta]
    simp [decide_eq_true_eq]
  · intro p hp hps htp
    dsimp only at hp ⊢
    have hpeer : p ∈ (if env.lookup = [] then [env.nodeID]
        else env.lookup).filter fun t => t ≠ env.nodeID :=
      List.mem_filter.mpr ⟨hp, by simp [hps]⟩
    have hpm : (p, env.transport p) ∈
        (env.nodeID, (none : Option String)) ::
          ((if env.lookup = [] then [env.nodeID]
            else env.lookup).filter fun t => t ≠ env.nodeID).map
              (fun p => (p, env.transport p)) ++
          (if env.s3Bucket ≠ "" ∧ env.s3Key ≠ "" then
            [("s3:" ++ env.s3Bucket ++ "/" ++ env.s3Key, env.s3Result)]
          else []) := by
      apply List.mem_cons_of_mem
      exact List.mem_append_left _ (List.mem_map_of_mem _ hpeer)
    have hagg : MergeReplicationErrors
        ((env.nodeID, (none : Option String)) ::
          ((if env.lookup = [] then [env.nodeID]
            else env.lookup).filter fun t => t ≠ env.nodeID).map
              (fun p => (p, env.transport p)) ++
          (if env.s3Bucket ≠ "" ∧ env.s3Key ≠ "" then
            [("s3:" ++ env.s3Bucket ++ "/" ++ env.s3Key, env.s3Result)]
          else [])) ≠ none := by
      intro hnone
      exact htp ((merge_none_iff _).mp hnone (p, env.transport p) hpm)
    have hdec : decide (MergeReplicationErrors
        ((env.nodeID, (none : Option String)) ::
          ((if env.lookup = [] then [env.nodeID]
            else env.lookup).filter fun t => t ≠ env.nodeID).map
              (fun p => (p, env.transport p)) ++
          (if env.s3Bucket ≠ "" ∧ env.s3Key ≠ "" then
            [("s3:" ++ env.s3Bucket ++ "/" ++ env.s3Key, env.s3Result)]
          else [])) = none) = false := decide_eq_false hagg
    rw [hdec, Bool.and_false]

/-- Witness for C6: in the concrete three-node upload where peer C fails,
the aggregate is non-nil and the `SegmentRecord` is not written. -/
theorem upload_aggregate_iff_record_witness :
    uploadDonePeerFail.recordWritten = false ∧
    uploadDonePeerFail.aggregate ≠ none :=
  have h := upload_aggregate_iff_record uploadEnvPeerFail uploadDonePeerFail
    (by decide)
  ⟨h.2.2 "C" (by decide) (by decide) (by decide),
   h.1.mpr ⟨("C", some "dial error"), by decide, by decide⟩⟩

/-- Claim C8: every upload reaching the fan-out has the local node in its
replica set; if the ring returns a non-empty set not containing the local
node, the phase fails fast with the missing-primary error before any
replication or metadata write. -/
theorem upload_replica_set_has_primary (env : UploadEnv) :
    (∀ d, uploadReplication env = UploadPhase.completed d →
      env.nodeID ∈ d.targets)
  ∧ (env.lookup ≠ [] → env.nodeID ∉ env.lookup →
      uploadReplication env = UploadPhase.failFast SErr.missingPrimary) := by
  constructor
  · intro d hc
    simp only [uploadReplication] at hc
    rcases hval : ValidateReplicationTargets
        (if env.lookup = [] then [env.nodeID] else env.lookup) env.nodeID
      with _ | e
    rotate_left
    · rw [hval] at hc
      exact absurd hc (by simp)
    · rw [hval] at hc
      simp only [UploadPhase.completed.injEq] at hc
      subst hc
      dsimp only
      unfold ValidateReplicationTargets at hval
      by_cases h0 : (if env.lookup = [] then [env.nodeID]
          else env.lookup) = []
      · rw [if_pos h0] at hval
        cases hval
      · rw [if_neg h0] at hval
        by_cases h1 : env.nodeID ∈ (if env.lookup = [] then [env.nodeID]
            else env.lookup)
        · exact h1
        · rw [if_neg h1] at hval
          cases hval
  · intro hne hns
    simp only [uploadReplication, if_neg hne]
    have hv : ValidateReplicationTargets env.lookup env.nodeID =
        some SErr.missingPrimary := by
      unfold ValidateReplicationTargets
      rw [if_neg hne, if_neg hns]
    rw [hv]

/-- Witness for C8: a lookup `["B"]` with local node `"A"` fails fast. -/
theorem upload_replica_set_has_primary_witness :
    uploadReplication uploadEnvNoPrimary =
      UploadPhase.failFast SErr.missingPrimary :=
  (upload_replica_set_has_primary uploadEnvNoPrimary).2 (by decide)
    (by decide)

/-- Claim C10: when the ring lookup is empty, `UploadSegment` substitutes
the singleton local replica set and proceeds: the phase completes with the
local node as the only target, no peer results, a nil aggregate, and (when
no S3 task is requested) the record written exactly when a metadata store
is configured. -/
theorem upload_empty_lookup_local_only (env : UploadEnv)
    (hempty : env.lookup = [])
    (hs3 : env.s3Bucket = "" ∨ env.s3Key = "") :
    uploadReplication env = UploadPhase.completed
      { targets := [env.nodeID], results := [(env.nodeID, none)],
        aggregate := none, recordWritten := env.hasMetadata,
        replicas := [] } := by
  rcases hs3 with h | h <;>
    simp [uploadReplication, hempty, ValidateReplicationTargets,
      MergeReplicationErrors, h]

/-- Witness for C10 on a concrete environment. -/
theorem upload_empty_lookup_local_only_witness :
    uploadReplication uploadEnvEmptyLookup = UploadPhase.completed
      { targets := ["n1"], results := [("n1", none)], aggregate := none,
        recordWritten := true, replicas := [] } :=
  upload_empty_lookup_local_only uploadEnvEmptyLookup rfl (Or.inl rfl)


/-! ### Theorems for pgxsim transaction commit (C9) -/

theorem storeGet_none_of_not_mem_keys (k : String) :
    ∀ ws : List Rec, k ∉ ws.map Rec.key → storeGet ws k = none
  | [], _ => rfl
  | w :: ws, h => by
      simp only [List.map_cons, List.mem_cons, not_or] at h
      simp only [storeGet]
      rw [if_neg fun hc => h.1 hc.symm]
      exact storeGet_none_of_not_mem_keys k ws h.2

theorem storeGet_foldl_storeDel (k : String) :
    ∀ (ds : List String) (s : List Rec),
      storeGet (ds.foldl storeDel s) k =
        if k ∈ ds then none else storeGet s k
  | [], s => by simp
  | d :: ds, s => by
      rw [List.foldl_cons, storeGet_foldl_storeDel k ds (storeDel s d),
        storeGet_storeDel]
      by_cases hd : k ∈ ds
      · simp [hd]
      · by_cases hkd : d = k
        · simp [hd, hkd]
        · have hm : ¬ k ∈ d :: ds := by
            simp only [List.mem_cons, not_or]
            exact ⟨fun hc => hkd hc.symm, hd⟩
          simp [hd, hkd, hm]

theorem storeGet_foldl_storePut (k : String) :
    ∀ (ws : List Rec) (s : List Rec), (ws.map Rec.key).Nodup →
      storeGet (ws.foldl storePut s) k =
        (match storeGet ws k with
         | some r => some r
         | none => storeGet s k)
  | [], s, _ => by simp [storeGet]
  | w :: ws, s, hnd => by
      rw [List.map_cons] at hnd
      have hndc := List.nodup_cons.mp hnd
      rw [List.foldl_cons, storeGet_foldl_storePut k ws (storePut s w) hndc.2]
      by_cases hk : w.key = k
      · have hnotin : k ∉ ws.map Rec.key := hk ▸ hndc.1
        rw [storeGet_none_of_not_mem_keys k ws hnotin]
        simp only [storeGet, if_pos hk]
        rw [storeGet_storePut]
        simp [hk]
      · simp only [storeGet, if_neg hk]
        cases hws : storeGet ws k
        · rw [storeGet_storePut]
          simp [hk]
        · rfl

theorem check_entry_iff (store : List Rec) (p : String × Int) :
    ((match storeGet store p.1 with
      | none => p.2 == 0
      | some cur => cur.version == p.2) = true) ↔
    storeVersion store p.1 = p.2 := by
  cases h : storeGet store p.1 with
  | none =>
      simp only [storeVersion, h, beq_iff_eq]
      exact eq_comm
  | some cur =>
      simp only [storeVersion, h, beq_iff_eq]

theorem readset_check_iff (rs : List (String × Int)) (store : List Rec) :
    ((rs.all fun p =>
      match storeGet store p.1 with
      | none => p.2 == 0
      | some cur => cur.version == p.2) = true) ↔
    ∀ p ∈ rs, storeVersion store p.1 = p.2 := by
  rw [List.all_eq_true]
  constructor
  · intro h p hp
    exact (check_entry_iff store p).mp (h p hp)
  · intro h p hp
    exact (check_entry_iff store p).mpr (h p hp)

/-- Claim C9: `Tx.Commit` on an open transaction applies the buffered
deletes and writes to the shared store iff every read-set entry still holds,
at commit time, the version recorded when it was read (version 0 meaning
the key was absent); otherwise it returns the serialization error and
leaves the store entirely unchanged.  The applied store satisfies, per key:
a buffered write wins, a buffered delete removes the row, anything else is
untouched. -/
theorem tx_commit_atomic (tx : Tx) (store : List Rec)
    (hopen : tx.committed = false ∧ tx.rolled = false)
    (hw : (tx.writes.map Rec.key).Nodup) :
    ((tx.Commit store).2.2 = none ↔
      ∀ p ∈ tx.readset, storeVersion store p.1 = p.2)
  ∧ ((tx.Commit store).2.2 = some CommitErr.serialization ↔
      ¬ ∀ p ∈ tx.readset, storeVersion store p.1 = p.2)
  ∧ ((tx.Commit store).2.2 = none →
      ∀ k, storeGet (tx.Commit store).2.1 k =
        (match storeGet tx.writes k with
         | some r => some r
         | none => if k ∈ tx.deletes then none else storeGet store k))
  ∧ ((tx.Commit store).2.2 ≠ none → (tx.Commit store).2.1 = store) := by
  have hnc : ¬(tx.committed ∨ tx.rolled) := by simp [hopen.1, hopen.2]
  unfold Tx.Commit
  rw [if_neg hnc]
  by_cases hval : (tx.readset.all fun p =>
      match storeGet store p.1 with
      | none => p.2 == 0
      | some cur => cur.version == p.2) = true
  · rw [if_pos hval]
    have hv := (readset_check_iff tx.readset store).mp hval
    refine ⟨⟨fun _ => hv, fun _ => rfl⟩,
      ⟨fun h => Option.noConfusion h, fun h => absurd hv h⟩, ?_, ?_⟩
    · intro _ k
      rw [storeGet_foldl_storePut k tx.writes _ hw]
      cases hws : storeGet tx.writes k
      · rw [storeGet_foldl_storeDel]
      · rfl
    · intro h
      exact absurd rfl h
  · rw [if_neg hval]
    have hnv : ¬ ∀ p ∈ tx.readset, storeVersion store p.1 = p.2 :=
      fun hall => hval ((readset_check_iff tx.readset store).mpr hall)
    refine ⟨⟨fun h => Option.noConfusion h, fun h => absurd h hnv⟩,
      ⟨fun _ => hnv, fun _ => rfl⟩, ?_, fun _ => rfl⟩
    intro h
    cases h

/-- Witness for C9: the concrete commit validates its read set and installs
the buffered write. -/
theorem tx_commit_atomic_witness :
    (txEx.Commit pgEx).2.2 = none ∧
    storeGet (txEx.Commit pgEx).2.1 "a" = some recV2 :=
  have h := tx_commit_atomic txEx pgEx ⟨rfl, rfl⟩ (by decide)
  have hnone : (txEx.Commit pgEx).2.2 = none := h.1.mpr (by decide)
  ⟨hnone, by
    rw [h.2.2.1 hnone "a"]
    decide⟩

end TT
